import Mathlib

set_option autoImplicit false

/-!
Verification of the RepoGuardian reminder engine (src/remind-reviewers.js).

The JavaScript source is shallowly embedded: timestamps are integers
(milliseconds since epoch), elapsed hours are exact rationals, the remote
platform (Octokit) is an explicit environment of response functions, and each
engine returns the list of produced reminder actions together with a trace of
observable events (remote calls and log lines) and an optional uncaught
error (a thrown exception escaping the function).
-/

namespace RepoGuardian

/-- A review record as consumed by the code: only the (possibly null)
reviewer login matters (`r.user && r.user.login`). -/
structure Review where
  user : Option String
  deriving DecidableEq, Repr

/-- Snapshot of a pull request as used by the engines. -/
structure PullRequest where
  number : Nat
  createdAt : Int
  updatedAt : Int
  mergedAt : Option Int
  headBranch : String
  author : String
  requestedReviewers : List String
  deriving DecidableEq, Repr

/-- Immutable per-run configuration derived from environment variables. -/
structure Config where
  owner : String
  reposStr : String
  reviewHours : Rat
  lookbackDays : Int
  dryRun : Bool
  includeForks : Bool
  includeArchived : Bool
  deriving DecidableEq, Repr

/-- A resolved repository target. -/
structure RepoRef where
  owner : String
  name : String
  deriving DecidableEq, Repr

/-- A reminder action decided by one of the engines. -/
inductive Action where
  | reviewerReminder (prNumber : Nat) (login : String) (hoursWaited : Rat)
  | branchCleanup (prNumber : Nat) (branch : String) (author : String)
  deriving DecidableEq, Repr

/-- Result of `octokit.git.getRef` for a branch: success, or a thrown error
carrying a status code (404 meaning the ref does not exist). -/
inductive RefResult where
  | ok
  | err (status : Nat)
  deriving DecidableEq, Repr

/-- Observable events of one repository scan: remote calls and log lines. -/
inductive Event where
  | checkingOpen
  | checkingClosed
  | pageRequestOpen (page : Nat)
  | pageRequestClosed (page : Nat)
  | commentCall (prNumber : Nat) (body : String)
  | commentedReviewer (prNumber : Nat) (login : String)
  | commentedBranch (prNumber : Nat)
  | logDryRun (prNumber : Nat) (body : String)
  | refCheck (prNumber : Nat) (branch : String)
  | errorCheckingRef (prNumber : Nat) (branch : String) (status : Nat)
  | errorProcessingRepo (status : Nat)
  deriving DecidableEq, Repr

/-- Output of running a (possibly throwing) scan function: the event trace,
the reminder actions decided, and `err = some s` when an exception with
status `s` escaped the function at that point (later work never ran). -/
structure RunOut where
  events : List Event
  reminders : List Action
  err : Option Nat
  deriving DecidableEq, Repr

/-- Sequential composition: if the first part threw, the second never runs. -/
def RunOut.seq (a b : RunOut) : RunOut :=
  match a.err with
  | some _ => a
  | none => ⟨a.events ++ b.events, a.reminders ++ b.reminders, b.err⟩

/-- Run a step function over a list, stopping at the first uncaught error
(the JavaScript `for … of` loop with `await` calls that may throw). -/
def runList {α : Type} (f : α → RunOut) : List α → RunOut
  | [] => ⟨[], [], none⟩
  | x :: xs => RunOut.seq (f x) (runList f xs)

/-- Remote platform responses for a single repository. Page lists give the
responses for pages 1, 2, …; any page beyond the list is empty. -/
structure RepoEnv where
  openPages : List (List PullRequest)
  closedPages : List (List PullRequest)
  reviews : Nat → List Review
  refResult : String → RefResult
  commentResult : Nat → String → Option Nat

/-- `(Date.now() - new Date(pr.created_at)) / 36e5`, as an exact rational. -/
def hoursSince (now createdAt : Int) : Rat :=
  Rat.divInt (now - createdAt) 3600000

/-- JavaScript `Number.prototype.toFixed(1)` on an exact rational
(round half away from zero is irrelevant here; nonnegative inputs round
half up), producing one decimal digit: the integer `⌊q * 10 + 1 / 2⌋`
computed on the numerator and denominator. -/
def toFixed1 (q : Rat) : String :=
  let n : Int := (20 * q.num + q.den).fdiv (2 * q.den)
  toString (n / 10) ++ "." ++ toString ((n % 10).natAbs)

/-- Rendering of the threshold in the template (`${REVIEW_HOURS}`). -/
def ratStr (q : Rat) : String :=
  if q.den = 1 then toString q.num else toString q

/-- The reviewer reminder comment body template. -/
def reviewerBody (login : String) (hours rh : Rat) : String :=
  "@" ++ login ++ " You were requested for review " ++ toFixed1 hours ++
    " hours ago (threshold " ++ ratStr rh ++ "h). Please review this PR."

/-- The branch cleanup comment body template. -/
def branchBody (author branch : String) : String :=
  "@" ++ author ++ " The PR was merged but the branch `" ++ branch ++
    "` still exists. Please delete it if it\x27s no longer needed."

/-- `reviews.find(r => r.user && r.user.login === reviewer.login)` is some. -/
def hasReviewBy (reviews : List Review) (login : String) : Bool :=
  reviews.any (fun r => r.user == some login)

/-- The pure eligibility decision for one requested reviewer:
`!reviewByUser && hoursSinceRequested > REVIEW_HOURS`. -/
def reviewerDecision (rh : Rat) (reviews : List Review) (now : Int)
    (pr : PullRequest) (login : String) : Option Action :=
  if hasReviewBy reviews login then none
  else if hoursSince now pr.createdAt > rh then
    some (.reviewerReminder pr.number login (hoursSince now pr.createdAt))
  else none

/-- Body of the inner reviewer loop for one requested reviewer. -/
def reviewerStep (cfg : Config) (env : RepoEnv) (now : Int) (pr : PullRequest)
    (reviews : List Review) (login : String) : RunOut :=
  match reviewerDecision cfg.reviewHours reviews now pr login with
  | none => ⟨[], [], none⟩
  | some a =>
    let body := reviewerBody login (hoursSince now pr.createdAt) cfg.reviewHours
    if cfg.dryRun then ⟨[.logDryRun pr.number body], [a], none⟩
    else
      match env.commentResult pr.number body with
      | none =>
        ⟨[.commentCall pr.number body, .commentedReviewer pr.number login], [a], none⟩
      | some s => ⟨[.commentCall pr.number body], [a], some s⟩

/-- Processing of one open pull request (skip when it has no requested
reviewers, otherwise fetch its reviews and walk the requested reviewers). -/
def prStepOpen (cfg : Config) (env : RepoEnv) (now : Int) (pr : PullRequest) : RunOut :=
  if pr.requestedReviewers.isEmpty then ⟨[], [], none⟩
  else runList (reviewerStep cfg env now pr (env.reviews pr.number)) pr.requestedReviewers

/-- The open-PR pagination loop of `notifyInactiveReviewers`, starting at
`page`: request the page, stop if empty, otherwise process it and continue. -/
def openGo (cfg : Config) (env : RepoEnv) (now : Int) : Nat → List (List PullRequest) → RunOut
  | page, [] => ⟨[.pageRequestOpen page], [], none⟩
  | page, p :: rest =>
    if p.isEmpty then ⟨[.pageRequestOpen page], [], none⟩
    else
      let b := RunOut.seq (runList (prStepOpen cfg env now) p) (openGo cfg env now (page + 1) rest)
      ⟨.pageRequestOpen page :: b.events, b.reminders, b.err⟩

/-- `notifyInactiveReviewers(owner, repo)`. -/
def notifyInactiveReviewers (cfg : Config) (env : RepoEnv) (now : Int) : RunOut :=
  let b := openGo cfg env now 1 env.openPages
  ⟨Event.checkingOpen :: b.events, b.reminders, b.err⟩

/-- The open pull requests actually iterated by the pagination loop
(everything up to, not including, the first empty page). -/
def processedOpen : List (List PullRequest) → List PullRequest
  | [] => []
  | p :: rest => if p.isEmpty then [] else p ++ processedOpen rest

/-- `since = Date.now() - MAX_CLOSED_LOOKBACK_DAYS * 864e5`. -/
def sinceOf (cfg : Config) (now : Int) : Int :=
  now - cfg.lookbackDays * 86400000

/-- `anyWithinWindow` after iterating a page: some PR has
`!(updated < since)`. -/
def pageWithin (since : Int) (p : List PullRequest) : Bool :=
  p.any (fun pr => !decide (pr.updatedAt < since))

/-- The pure decision for one closed PR: a cleanup reminder is decided
exactly when the PR is within the window, merged, and its head branch ref
still exists. -/
def branchDecision (env : RepoEnv) (since : Int) (pr : PullRequest) : Option Action :=
  if pr.updatedAt < since then none
  else if pr.mergedAt.isSome then
    match env.refResult pr.headBranch with
    | .ok => some (.branchCleanup pr.number pr.headBranch pr.author)
    | .err _ => none
  else none

/-- Body of the closed-PR loop for one pull request, including the shared
try/catch around the ref lookup and the comment creation. -/
def branchPrStep (cfg : Config) (env : RepoEnv) (since : Int) (pr : PullRequest) : RunOut :=
  if pr.updatedAt < since then ⟨[], [], none⟩
  else if pr.mergedAt.isSome then
    match env.refResult pr.headBranch with
    | .ok =>
      if cfg.dryRun then
        ⟨[.refCheck pr.number pr.headBranch,
          .logDryRun pr.number (branchBody pr.author pr.headBranch)],
         [.branchCleanup pr.number pr.headBranch pr.author], none⟩
      else
        match env.commentResult pr.number (branchBody pr.author pr.headBranch) with
        | none =>
          ⟨[.refCheck pr.number pr.headBranch,
            .commentCall pr.number (branchBody pr.author pr.headBranch),
            .commentedBranch pr.number],
           [.branchCleanup pr.number pr.headBranch pr.author], none⟩
        | some s =>
          if s = 404 then
            ⟨[.refCheck pr.number pr.headBranch,
              .commentCall pr.number (branchBody pr.author pr.headBranch)],
             [.branchCleanup pr.number pr.headBranch pr.author], none⟩
          else
            ⟨[.refCheck pr.number pr.headBranch,
              .commentCall pr.number (branchBody pr.author pr.headBranch),
              .errorCheckingRef pr.number pr.headBranch s],
             [.branchCleanup pr.number pr.headBranch pr.author], none⟩
    | .err s =>
      if s = 404 then ⟨[.refCheck pr.number pr.headBranch], [], none⟩
      else ⟨[.refCheck pr.number pr.headBranch,
             .errorCheckingRef pr.number pr.headBranch s], [], none⟩
  else ⟨[], [], none⟩

/-- The closed-PR pagination loop of `notifyUndeletedBranches`: request the
page, stop if empty, otherwise process every PR of the page and continue
only when some PR of the page was within the lookback window. -/
def closedGo (cfg : Config) (env : RepoEnv) (since : Int) : Nat → List (List PullRequest) → RunOut
  | page, [] => ⟨[.pageRequestClosed page], [], none⟩
  | page, p :: rest =>
    if p.isEmpty then ⟨[.pageRequestClosed page], [], none⟩
    else
      let body := runList (branchPrStep cfg env since) p
      if pageWithin since p then
        let b := RunOut.seq body (closedGo cfg env since (page + 1) rest)
        ⟨.pageRequestClosed page :: b.events, b.reminders, b.err⟩
      else ⟨.pageRequestClosed page :: body.events, body.reminders, body.err⟩

/-- `notifyUndeletedBranches(owner, repo)`. -/
def notifyUndeletedBranches (cfg : Config) (env : RepoEnv) (now : Int) : RunOut :=
  let b := closedGo cfg env (sinceOf cfg now) 1 env.closedPages
  ⟨Event.checkingClosed :: b.events, b.reminders, b.err⟩

/-- The closed pull requests actually iterated by the pagination loop: every
nonempty page is iterated in full, and the loop goes on to the next page
only when the page had a PR within the window. -/
def processedClosed (since : Int) : List (List PullRequest) → List PullRequest
  | [] => []
  | p :: rest =>
    if p.isEmpty then []
    else if pageWithin since p then p ++ processedClosed since rest
    else p

/-- Per-repository body of `main`: the two engines in order, an exception in
the first skipping the second. -/
def processRepo (cfg : Config) (env : RepoEnv) (now : Int) : RunOut :=
  RunOut.seq (notifyInactiveReviewers cfg env now) (notifyUndeletedBranches cfg env now)

/-- Trace of the whole run over resolved repositories: each event tagged with
the repository it came from. -/
structure MainOut where
  events : List (RepoRef × Event)
  deriving DecidableEq, Repr

/-- The repository loop of `main`: per-repository try/catch, logging a caught
error with the repository identity and moving on. -/
def mainRun (cfg : Config) (renv : RepoRef → RepoEnv) (now : Int) : List RepoRef → MainOut
  | [] => ⟨[]⟩
  | r :: rs =>
    let out := processRepo cfg (renv r) now
    let tail := mainRun cfg renv now rs
    match out.err with
    | none => ⟨out.events.map (fun e => (r, e)) ++ tail.events⟩
    | some s =>
      ⟨out.events.map (fun e => (r, e)) ++ [(r, Event.errorProcessingRepo s)] ++ tail.events⟩

/-- A repository as listed by auto-discovery (before filtering/mapping). -/
structure RepoInfo where
  ownerLogin : String
  name : String
  fork : Bool
  archived : Bool
  deriving DecidableEq, Repr

/-- Response of `octokit.repos.listForOrg` for one page: a page of
repositories, or a thrown error with a status code. -/
inductive OrgResult where
  | ok (repos : List RepoInfo)
  | err (status : Nat)
  deriving DecidableEq, Repr

/-- Remote responses for repository auto-discovery. Entries are the
responses for pages 1, 2, …; pages beyond the lists are empty. -/
structure DiscoveryEnv where
  orgResponses : List OrgResult
  userResponses : List (List RepoInfo)

/-- Organization-style listing response for a page number (1-based). -/
def orgAt (env : DiscoveryEnv) (page : Nat) : OrgResult :=
  env.orgResponses.getD (page - 1) (.ok [])

/-- User-style listing response for a page number (1-based). -/
def userAt (env : DiscoveryEnv) (page : Nat) : List RepoInfo :=
  env.userResponses.getD (page - 1) []

/-- Which listing a page of repository data was taken from. -/
inductive Src where
  | org
  | user
  deriving DecidableEq, Repr

/-- Trace and result of the auto-discovery loop. `trace` records, for each
page whose data was consumed, the listing it was taken from; `infos` is the
raw consumed data before filtering; `err = some s` when a non-404
organization-listing error was thrown. -/
structure DiscOut where
  repos : List RepoRef
  infos : List RepoInfo
  trace : List (Nat × Src)
  err : Option Nat
  deriving DecidableEq, Repr

/-- The filter applied to discovered repositories:
`(INCLUDE_ARCHIVED || !r.archived) && (INCLUDE_FORKS || !r.fork)`. -/
def discPass (cfg : Config) (r : RepoInfo) : Bool :=
  (cfg.includeArchived || !r.archived) && (cfg.includeForks || !r.fork)

/-- One iteration of the auto-discovery loop before the empty-page test: the
organization-style call is issued first; a 404 switches to the user-style
listing (and switches the mode flag off), any other error is thrown; when
the mode flag is already off the data is taken from the user-style listing
(the organization data, though fetched, is discarded). Returns the page data
used, its source, and the mode flag for the next iteration. -/
def discStep (env : DiscoveryEnv) (page : Nat) (isOrg : Bool) :
    Except Nat (List RepoInfo × Src × Bool) :=
  match orgAt env page with
  | .ok d => if isOrg then .ok (d, .org, true) else .ok (userAt env page, .user, false)
  | .err s => if s = 404 then .ok (userAt env page, .user, false) else .error s

/-- The auto-discovery pagination loop: stop at the first empty page,
otherwise filter and collect the page and continue; `fuel` bounds the
iterations and is chosen large enough to cover every remote response. -/
def discGo (cfg : Config) (env : DiscoveryEnv) : Nat → Nat → Bool → DiscOut
  | 0, _, _ => ⟨[], [], [], none⟩
  | fuel + 1, page, isOrg =>
    match discStep env page isOrg with
    | .error s => ⟨[], [], [], some s⟩
    | .ok (data, src, isOrg2) =>
      if data.isEmpty then ⟨[], [], [], none⟩
      else
        let rest := discGo cfg env fuel (page + 1) isOrg2
        ⟨(data.filter (discPass cfg)).map (fun r => ⟨r.ownerLogin, r.name⟩) ++ rest.repos,
         data ++ rest.infos, (page, src) :: rest.trace, rest.err⟩

/-- Enough fuel to reach the first page beyond every remote response. -/
def discFuel (env : DiscoveryEnv) : Nat :=
  max env.orgResponses.length env.userResponses.length + 1

/-- The auto-discovery loop as run by `autoDiscoverRepos`: page 1, organization
mode assumed first. -/
def discRun (cfg : Config) (env : DiscoveryEnv) : DiscOut :=
  discGo cfg env (discFuel env) 1 true

/-- Failures of repository resolution: a configuration error (thrown with a
message before any network use is required) or an uncaught remote error. -/
inductive ResolveErr where
  | config (msg : String)
  | remote (status : Nat)
  deriving DecidableEq, Repr

/-- JavaScript `str.split(sep)` for a one-character separator, on the
character list (every occurrence of the separator starts a new field; the
result always has one more field than there are separators). -/
def splitChars (c : Char) : List Char → List (List Char)
  | [] => [[]]
  | ch :: rest =>
    if ch = c then [] :: splitChars c rest
    else
      match splitChars c rest with
      | [] => [[ch]]
      | w :: ws => (ch :: w) :: ws

/-- JavaScript `str.split(sep)` for a one-character separator. -/
def jsSplit (c : Char) (s : String) : List String :=
  (splitChars c s.data).map (fun w => String.mk w)

/-- The whitespace characters relevant to trimming here. -/
def jsWhite (c : Char) : Bool :=
  c == ' ' || c == '\t' || c == '\n' || c == '\r'

/-- JavaScript `str.trim()`: strip leading and trailing whitespace. -/
def jsTrim (s : String) : String :=
  String.mk (((s.data.dropWhile jsWhite).reverse.dropWhile jsWhite).reverse)

/-- `REPOS_RAW`: split the raw `REPOS` value on commas, trim each entry and
drop the empty ones (`filter(Boolean)`). -/
def reposRaw (s : String) : List String :=
  ((jsSplit ',' s).map jsTrim).filter (fun e => !(e == ""))

/-- Parsing of one explicit repository entry (`owner/repo` or bare `repo`). -/
def parseEntry (owner entry : String) : Except String RepoRef :=
  match jsSplit '/' entry with
  | [name] =>
    if owner = "" then
      .error ("Repository \x27" ++ entry ++
        "\x27 missing owner. Provide OWNER env var or use \x27owner/repo\x27 form.")
    else .ok ⟨owner, name⟩
  | [o, n] => .ok ⟨o, n⟩
  | _ => .error ("Invalid repo spec: \x27" ++ entry ++ "\x27. Use \x27owner/repo\x27 or \x27repo\x27.")

/-- The entry loop of `parseExplicitRepos` (first bad entry throws). -/
def parseExplicitReposGo (owner : String) : List String → Except String (List RepoRef)
  | [] => .ok []
  | e :: rest =>
    if e = "" then parseExplicitReposGo owner rest
    else
      match parseEntry owner e with
      | .error m => .error m
      | .ok r =>
        match parseExplicitReposGo owner rest with
        | .error m => .error m
        | .ok l => .ok (r :: l)

/-- `parseExplicitRepos()` over the already-split `REPOS_RAW` list. -/
def parseExplicitRepos (owner : String) (entries : List String) : Except String (List RepoRef) :=
  if entries.isEmpty then .ok [] else parseExplicitReposGo owner entries

/-- `autoDiscoverRepos()`: requires an owner, then pages through the listing. -/
def autoDiscoverRepos (cfg : Config) (env : DiscoveryEnv) : Except ResolveErr (List RepoRef) :=
  if cfg.owner = "" then .error (.config "OWNER env var required when REPOS not provided.")
  else
    let out := discRun cfg env
    match out.err with
    | some s => .error (.remote s)
    | none => .ok out.repos

/-- Result of `listRepos()` together with whether auto-discovery (and hence
the network) was used at all. -/
structure ListReposOut where
  result : Except ResolveErr (List RepoRef)
  usedDiscovery : Bool
  deriving Repr

/-- `listRepos()`: explicit parsing first; auto-discovery only when the
parsed explicit list is empty. -/
def listRepos (cfg : Config) (env : DiscoveryEnv) : ListReposOut :=
  match parseExplicitRepos cfg.owner (reposRaw cfg.reposStr) with
  | .error m => ⟨.error (.config m), false⟩
  | .ok l => if l.isEmpty then ⟨autoDiscoverRepos cfg env, true⟩ else ⟨.ok l, false⟩

/-- A configuration error as the resolution outcome. -/
def isConfigError : Except ResolveErr (List RepoRef) → Bool
  | .error (.config _) => true
  | _ => false

/-- An explicit entry that makes `parseExplicitRepos` throw: a bare name with
no configured owner, or more than two slash-separated parts. -/
@[reducible] def entryBad (owner e : String) : Prop :=
  ((jsSplit '/' e).length = 1 ∧ owner = "") ∨ 2 < (jsSplit '/' e).length

/-- The repository reference a good explicit entry parses to. -/
def parsedRef (owner e : String) : RepoRef :=
  match jsSplit '/' e with
  | [n] => ⟨owner, n⟩
  | [o, n] => ⟨o, n⟩
  | _ => ⟨"", ""⟩

/-- The whole run: resolution first; a resolution failure produces no scan
events at all, otherwise every resolved repository is scanned in order. -/
def fullRun (cfg : Config) (denv : DiscoveryEnv) (renv : RepoRef → RepoEnv) (now : Int) :
    Option ResolveErr × List (RepoRef × Event) :=
  match (listRepos cfg denv).result with
  | .error e => (some e, [])
  | .ok l => (none, (mainRun cfg renv now l).events)

/-- Whether an action is a branch-cleanup reminder for PR number `n`. -/
def actionForPr (n : Nat) : Action → Bool
  | .branchCleanup m _ _ => m == n
  | .reviewerReminder _ _ _ => false

/-- The pull request number an action refers to. -/
def actionPr : Action → Nat
  | .reviewerReminder n _ _ => n
  | .branchCleanup n _ _ => n

/-- The comment body an action renders to (the text posted in live mode). -/
def actionBody (rh : Rat) : Action → String
  | .reviewerReminder _ login hours => reviewerBody login hours rh
  | .branchCleanup _ branch author => branchBody author branch

/-- The same configuration with the dry-run flag replaced. -/
def setDryRun (c : Config) (b : Bool) : Config :=
  ⟨c.owner, c.reposStr, c.reviewHours, c.lookbackDays, b, c.includeForks, c.includeArchived⟩

/-- Every reminder of the output has a matching event built by `mk` from its
PR number and rendered body (instantiated with dry-run log lines or with
live comment calls). -/
def RemindLogged (mk : Nat → String → Event) (rh : Rat) (o : RunOut) : Prop :=
  ∀ a ∈ o.reminders, mk (actionPr a) (actionBody rh a) ∈ o.events

/-- No remote comment-creation call appears in the output. -/
def NoCommentCall (o : RunOut) : Prop :=
  ∀ n b, Event.commentCall n b ∉ o.events

/-! ## Concrete scenarios used to witness the claims -/

/-- A stale open PR (13h old at scan time) with reviewers alice and bob. -/
def c1PR : PullRequest := ⟨1, 0, 0, none, "b", "a", ["alice", "bob"]⟩

/-- An open PR whose age is exactly the 12h threshold at scan time. -/
def c1PRb : PullRequest := ⟨2, 3600000, 0, none, "b2", "a", ["bob"]⟩

/-- Environment for the reviewer-reminder scenario: alice has reviewed. -/
def c1Env : RepoEnv :=
  ⟨[[c1PR, c1PRb]], [], fun _ => [⟨some "alice"⟩], fun _ => .ok, fun _ _ => none⟩

/-- Dry-run configuration with a 12h review threshold. -/
def c1Cfg : Config := ⟨"o", "", 12, 14, true, false, false⟩

/-- A merged PR updated within the lookback window. -/
def c2New : PullRequest := ⟨1, 0, 1000000000, some 5, "f1", "a1", []⟩

/-- A merged PR last updated far before the lookback window. -/
def c2Old : PullRequest := ⟨2, 0, -1000000000000, some 6, "f2", "a2", []⟩

/-- Environment for the pagination scenario: a recent page then an old page. -/
def c2Env : RepoEnv := ⟨[], [[c2New], [c2Old]], fun _ => [], fun _ => .ok, fun _ _ => none⟩

/-- Live configuration with a 14-day lookback window. -/
def c2Cfg : Config := ⟨"o", "", 12, 14, false, false, false⟩

/-- Branch-ref responses: `b2` deleted (404), `b3` erroring (500), rest exist. -/
def c3Ref : String → RefResult :=
  fun b => if b = "b2" then .err 404 else if b = "b3" then .err 500 else .ok

/-- A merged in-window PR whose branch exists. -/
def c3P1 : PullRequest := ⟨1, 0, 0, some 1, "b1", "u1", []⟩

/-- A merged in-window PR whose branch was already deleted. -/
def c3P2 : PullRequest := ⟨2, 0, 0, some 1, "b2", "u2", []⟩

/-- A merged in-window PR whose branch lookup fails with status 500. -/
def c3P3 : PullRequest := ⟨3, 0, 0, some 1, "b3", "u3", []⟩

/-- Environment for the branch-cleanup outcome scenario. -/
def c3Env : RepoEnv := ⟨[], [[c3P1, c3P2, c3P3]], fun _ => [], c3Ref, fun _ _ => none⟩

/-- Live configuration for the branch-cleanup outcome scenario. -/
def c3Cfg : Config := ⟨"o", "", 12, 14, false, false, false⟩

/-- A merged in-window PR whose cleanup comment will fail with 404. -/
def c10P1 : PullRequest := ⟨1, 0, 0, some 1, "b1", "u1", []⟩

/-- A merged in-window PR whose cleanup comment will fail with 500. -/
def c10P2 : PullRequest := ⟨2, 0, 0, some 1, "b2", "u2", []⟩

/-- Environment where every branch exists but comment creation fails. -/
def c10Env : RepoEnv :=
  ⟨[], [[c10P1, c10P2]], fun _ => [], fun _ => .ok,
    fun n _ => if n = 1 then some 404 else some 500⟩

/-- Live configuration for the comment-failure scenario. -/
def c10Cfg : Config := ⟨"o", "", 12, 14, false, false, false⟩

/-- A stale open PR with two pending reviewers in request order. -/
def c4PR : PullRequest := ⟨1, 0, 0, none, "b", "a", ["alice", "bob"]⟩

/-- Environment where every comment creation fails with status 500. -/
def c4Env : RepoEnv := ⟨[[c4PR]], [], fun _ => [], fun _ => .ok, fun _ _ => some 500⟩

/-- Live configuration for the comment-failure scenario. -/
def c4Cfg : Config := ⟨"o", "", 12, 14, false, false, false⟩

/-- A stale open PR used in the orchestrator scenario. -/
def c6PR : PullRequest := ⟨1, 0, 0, none, "b", "a", ["alice"]⟩

/-- Environment whose comment creation fails with status 500. -/
def c6EnvFail : RepoEnv := ⟨[[c6PR]], [], fun _ => [], fun _ => .ok, fun _ _ => some 500⟩

/-- Environment with nothing to do. -/
def c6EnvOk : RepoEnv := ⟨[], [], fun _ => [], fun _ => .ok, fun _ _ => none⟩

/-- First target repository (fails while processing). -/
def c6RA : RepoRef := ⟨"o", "ra"⟩

/-- Second target repository (processed normally). -/
def c6RB : RepoRef := ⟨"o", "rb"⟩

/-- Per-repository environments for the orchestrator scenario. -/
def c6Renv : RepoRef → RepoEnv := fun r => if r = c6RA then c6EnvFail else c6EnvOk

/-- Live configuration for the orchestrator scenario. -/
def c6Cfg : Config := ⟨"o", "", 12, 14, false, false, false⟩

/-- A stale open PR with one pending reviewer, for the dry-run scenario. -/
def c5PR : PullRequest := ⟨1, 0, 0, none, "b", "a", ["bob"]⟩

/-- A merged in-window PR whose branch exists, for the dry-run scenario. -/
def c5M : PullRequest := ⟨2, 0, 0, some 1, "feat", "au", []⟩

/-- Environment for the dry-run scenario (comments would succeed). -/
def c5Env : RepoEnv := ⟨[[c5PR]], [[c5M]], fun _ => [], fun _ => .ok, fun _ _ => none⟩

/-- Dry-run configuration for the dry-run scenario. -/
def c5Cfg : Config := ⟨"o", "", 12, 14, true, false, false⟩

/-- Configuration with a valid explicit repository list (mixed forms). -/
def c7Cfg : Config := ⟨"acme", "o1/r1, r2", 12, 14, false, false, false⟩

/-- Configuration with a malformed explicit entry and no owner. -/
def c7BadCfg : Config := ⟨"", "a/b/c", 12, 14, false, false, false⟩

/-- Discovery environment with no repositories at all. -/
def c7Denv : DiscoveryEnv := ⟨[], []⟩

/-- Configuration whose explicit repository list is only whitespace. -/
def c9Cfg : Config := ⟨"", " , ,  ", 12, 14, false, false, false⟩

/-- Discovery environment for the whitespace-list scenario. -/
def c9Denv : DiscoveryEnv := ⟨[], []⟩

/-- Discovery environment: the owner is not an organization (404), and the
user listing has a fork and a normal repository. -/
def c8Env : DiscoveryEnv :=
  ⟨[.err 404], [[⟨"u", "r1", true, false⟩, ⟨"u", "r2", false, false⟩], []]⟩

/-- Configuration for the discovery scenario (forks and archived excluded). -/
def c8Cfg : Config := ⟨"u", "", 12, 14, false, false, false⟩

/-! ## Basic facts about sequencing and loops -/

theorem seq_err_none {a b : RunOut} :
    (RunOut.seq a b).err = none ↔ a.err = none ∧ b.err = none := by
  cases h : a.err <;> simp [RunOut.seq, h]

theorem seq_of_err_none {a b : RunOut} (h : a.err = none) :
    RunOut.seq a b = ⟨a.events ++ b.events, a.reminders ++ b.reminders, b.err⟩ := by
  simp [RunOut.seq, h]

theorem seq_events_sub {a b : RunOut} {e : Event}
    (he : e ∈ (RunOut.seq a b).events) : e ∈ a.events ∨ e ∈ b.events := by
  cases h : a.err with
  | none => rw [seq_of_err_none h] at he; simpa using he
  | some s => simp [RunOut.seq, h] at he; exact Or.inl he

theorem runList_err_none_iff {α : Type} (f : α → RunOut) (xs : List α) :
    (runList f xs).err = none ↔ ∀ x ∈ xs, (f x).err = none := by
  induction xs with
  | nil => simp [runList]
  | cons x xs ih => simp [runList, seq_err_none, ih]

theorem runList_events_eq {α : Type} (f : α → RunOut) (xs : List α)
    (h : ∀ x ∈ xs, (f x).err = none) :
    (runList f xs).events = (xs.map (fun x => (f x).events)).flatten := by
  induction xs with
  | nil => simp [runList]
  | cons x xs ih =>
    have hx : (f x).err = none := h x (by simp)
    rw [runList, seq_of_err_none hx]
    simp only [List.map_cons, List.flatten_cons]
    rw [ih (fun y hy => h y (by simp [hy]))]

theorem runList_reminders_eq {α : Type} (f : α → RunOut) (xs : List α)
    (h : ∀ x ∈ xs, (f x).err = none) :
    (runList f xs).reminders = (xs.map (fun x => (f x).reminders)).flatten := by
  induction xs with
  | nil => simp [runList]
  | cons x xs ih =>
    have hx : (f x).err = none := h x (by simp)
    rw [runList, seq_of_err_none hx]
    simp only [List.map_cons, List.flatten_cons]
    rw [ih (fun y hy => h y (by simp [hy]))]

theorem runList_events_sub {α : Type} {f : α → RunOut} {xs : List α} {e : Event}
    (he : e ∈ (runList f xs).events) : ∃ x ∈ xs, e ∈ (f x).events := by
  induction xs with
  | nil => simp [runList] at he
  | cons x xs ih =>
    rcases seq_events_sub he with h | h
    · exact ⟨x, by simp, h⟩
    · rcases ih h with ⟨y, hy, hey⟩
      exact ⟨y, by simp [hy], hey⟩

theorem runList_filterMap {α : Type} (f : α → RunOut) (g : α → Option Action) (xs : List α)
    (herr : ∀ x ∈ xs, (f x).err = none)
    (hrem : ∀ x ∈ xs, (f x).reminders = (g x).toList) :
    (runList f xs).reminders = xs.filterMap g := by
  induction xs with
  | nil => simp [runList]
  | cons x xs ih =>
    have hx : (f x).err = none := herr x (by simp)
    rw [runList, seq_of_err_none hx]
    simp only
    rw [ih (fun y hy => herr y (by simp [hy])) (fun y hy => hrem y (by simp [hy])),
      hrem x (by simp), List.filterMap_cons]
    cases g x <;> simp

/-! ## Reviewer engine characterizations -/

theorem reviewerDecision_eq_some {rh : Rat} {reviews : List Review} {now : Int}
    {pr : PullRequest} {login : String} {a : Action} :
    reviewerDecision rh reviews now pr login = some a ↔
      hasReviewBy reviews login = false ∧ hoursSince now pr.createdAt > rh ∧
        a = .reviewerReminder pr.number login (hoursSince now pr.createdAt) := by
  unfold reviewerDecision
  split
  · rename_i hrev
    simp [hrev]
  · rename_i hrev
    split
    · rename_i hgt
      rw [Option.some_inj]
      constructor
      · rintro rfl
        exact ⟨by simpa using hrev, hgt, rfl⟩
      · rintro ⟨-, -, rfl⟩
        rfl
    · rename_i hgt
      simp [hgt]

theorem reviewerStep_reminders (cfg : Config) (env : RepoEnv) (now : Int)
    (pr : PullRequest) (reviews : List Review) (login : String) :
    (reviewerStep cfg env now pr reviews login).reminders =
      (reviewerDecision cfg.reviewHours reviews now pr login).toList := by
  unfold reviewerStep
  split
  · rename_i ha
    simp [ha]
  · rename_i a ha
    split
    · simp [ha]
    · cases hc : env.commentResult pr.number
          (reviewerBody login (hoursSince now pr.createdAt) cfg.reviewHours) <;>
        simp [ha, hc]

theorem reviewerStep_err_none (cfg : Config) (env : RepoEnv) (now : Int)
    (pr : PullRequest) (reviews : List Review) (login : String) :
    (reviewerStep cfg env now pr reviews login).err = none ↔
      (reviewerDecision cfg.reviewHours reviews now pr login = none ∨ cfg.dryRun = true ∨
        env.commentResult pr.number
          (reviewerBody login (hoursSince now pr.createdAt) cfg.reviewHours) = none) := by
  unfold reviewerStep
  split
  · rename_i ha
    simp [ha]
  · rename_i a ha
    split
    · rename_i hdry
      simp [ha, hdry]
    · rename_i hdry
      cases hc : env.commentResult pr.number
          (reviewerBody login (hoursSince now pr.createdAt) cfg.reviewHours) <;>
        simp [ha, hc, hdry]

theorem prStepOpen_reminders (cfg : Config) (env : RepoEnv) (now : Int) (pr : PullRequest)
    (h : (prStepOpen cfg env now pr).err = none) :
    (prStepOpen cfg env now pr).reminders =
      pr.requestedReviewers.filterMap
        (reviewerDecision cfg.reviewHours (env.reviews pr.number) now pr) := by
  unfold prStepOpen at h ⊢
  split
  · rename_i hemp
    rw [List.isEmpty_iff] at hemp
    simp [hemp]
  · rename_i hemp
    rw [if_neg hemp] at h
    exact runList_filterMap _ _ _ ((runList_err_none_iff _ _).mp h)
      (fun login _ => reviewerStep_reminders cfg env now pr (env.reviews pr.number) login)

theorem openGo_err_none_iff (cfg : Config) (env : RepoEnv) (now : Int) (page : Nat)
    (pages : List (List PullRequest)) :
    (openGo cfg env now page pages).err = none ↔
      ∀ pr ∈ processedOpen pages, (prStepOpen cfg env now pr).err = none := by
  induction pages generalizing page with
  | nil => simp [openGo, processedOpen]
  | cons p rest ih =>
    by_cases hemp : p.isEmpty
    · simp [openGo, processedOpen, hemp]
    · simp only [openGo, processedOpen, if_neg hemp]
      rw [show (⟨Event.pageRequestOpen page ::
          (RunOut.seq (runList (prStepOpen cfg env now) p) (openGo cfg env now (page + 1) rest)).events,
          (RunOut.seq (runList (prStepOpen cfg env now) p) (openGo cfg env now (page + 1) rest)).reminders,
          (RunOut.seq (runList (prStepOpen cfg env now) p) (openGo cfg env now (page + 1) rest)).err⟩ :
          RunOut).err =
        (RunOut.seq (runList (prStepOpen cfg env now) p) (openGo cfg env now (page + 1) rest)).err
        from rfl]
      rw [seq_err_none, runList_err_none_iff, ih (page + 1)]
      constructor
      · rintro ⟨h1, h2⟩ pr hpr
        rcases List.mem_append.mp hpr with h | h
        · exact h1 pr h
        · exact h2 pr h
      · intro h
        exact ⟨fun pr hpr => h pr (List.mem_append.mpr (Or.inl hpr)),
          fun pr hpr => h pr (List.mem_append.mpr (Or.inr hpr))⟩

theorem openGo_reminders_eq (cfg : Config) (env : RepoEnv) (now : Int) (page : Nat)
    (pages : List (List PullRequest))
    (h : (openGo cfg env now page pages).err = none) :
    (openGo cfg env now page pages).reminders =
      ((processedOpen pages).map (fun pr =>
        pr.requestedReviewers.filterMap
          (reviewerDecision cfg.reviewHours (env.reviews pr.number) now pr))).flatten := by
  induction pages generalizing page with
  | nil => simp [openGo, processedOpen]
  | cons p rest ih =>
    by_cases hemp : p.isEmpty
    · simp [openGo, processedOpen, hemp]
    · have hstep : ∀ pr ∈ processedOpen (p :: rest), (prStepOpen cfg env now pr).err = none :=
        (openGo_err_none_iff cfg env now page (p :: rest)).mp h
      have herr : ∀ pr ∈ p, (prStepOpen cfg env now pr).err = none := by
        intro pr hpr
        exact hstep pr (by simp only [processedOpen, if_neg hemp]; exact List.mem_append.mpr (Or.inl hpr))
      have hrec : (openGo cfg env now (page + 1) rest).err = none := by
        rw [openGo_err_none_iff]
        intro pr hpr
        exact hstep pr (by simp only [processedOpen, if_neg hemp]; exact List.mem_append.mpr (Or.inr hpr))
      have hrl : (runList (prStepOpen cfg env now) p).err = none :=
        (runList_err_none_iff _ _).mpr herr
      simp only [openGo, if_neg hemp]
      rw [show (⟨Event.pageRequestOpen page ::
          (RunOut.seq (runList (prStepOpen cfg env now) p) (openGo cfg env now (page + 1) rest)).events,
          (RunOut.seq (runList (prStepOpen cfg env now) p) (openGo cfg env now (page + 1) rest)).reminders,
          (RunOut.seq (runList (prStepOpen cfg env now) p) (openGo cfg env now (page + 1) rest)).err⟩ :
          RunOut).reminders =
        (RunOut.seq (runList (prStepOpen cfg env now) p) (openGo cfg env now (page + 1) rest)).reminders
        from rfl]
      rw [seq_of_err_none hrl]
      simp only [processedOpen, if_neg hemp, List.map_append, List.flatten_append]
      rw [ih (page + 1) hrec]
      congr 1
      rw [runList_reminders_eq _ _ herr]
      congr 1
      exact List.map_congr_left (fun pr hpr => prStepOpen_reminders cfg env now pr (herr pr hpr))

theorem notifyInactive_err (cfg : Config) (env : RepoEnv) (now : Int) :
    (notifyInactiveReviewers cfg env now).err = (openGo cfg env now 1 env.openPages).err := rfl

theorem notifyInactive_reminders (cfg : Config) (env : RepoEnv) (now : Int) :
    (notifyInactiveReviewers cfg env now).reminders =
      (openGo cfg env now 1 env.openPages).reminders := rfl

/-! ## Branch-cleanup engine characterizations -/

theorem branchPrStep_err_none (cfg : Config) (env : RepoEnv) (since : Int) (pr : PullRequest) :
    (branchPrStep cfg env since pr).err = none := by
  unfold branchPrStep
  repeat' split
  all_goals rfl

theorem branchPrStep_reminders (cfg : Config) (env : RepoEnv) (since : Int) (pr : PullRequest) :
    (branchPrStep cfg env since pr).reminders = (branchDecision env since pr).toList := by
  unfold branchPrStep branchDecision
  repeat' split
  all_goals simp_all

theorem branchPrStep_refCheck_mem (cfg : Config) (env : RepoEnv) (since : Int)
    (pr : PullRequest) (n : Nat) (b : String) :
    Event.refCheck n b ∈ (branchPrStep cfg env since pr).events ↔
      (¬ pr.updatedAt < since ∧ pr.mergedAt.isSome = true ∧
        n = pr.number ∧ b = pr.headBranch) := by
  unfold branchPrStep
  repeat' split
  all_goals simp_all

theorem branchPrStep_errRef_mem (cfg : Config) (env : RepoEnv) (since : Int)
    (pr : PullRequest) (n : Nat) (b : String) (s : Nat) :
    Event.errorCheckingRef n b s ∈ (branchPrStep cfg env since pr).events ↔
      (¬ pr.updatedAt < since ∧ pr.mergedAt.isSome = true ∧
        n = pr.number ∧ b = pr.headBranch ∧ s ≠ 404 ∧
        (env.refResult pr.headBranch = .err s ∨
          (env.refResult pr.headBranch = .ok ∧ cfg.dryRun = false ∧
            env.commentResult pr.number (branchBody pr.author pr.headBranch) = some s))) := by
  unfold branchPrStep
  repeat' split
  all_goals simp_all
  all_goals omega

theorem branchPrStep_no_page (cfg : Config) (env : RepoEnv) (since : Int)
    (pr : PullRequest) (j : Nat) :
    Event.pageRequestClosed j ∉ (branchPrStep cfg env since pr).events := by
  unfold branchPrStep
  repeat' split
  all_goals simp

theorem closedGo_err_none (cfg : Config) (env : RepoEnv) (since : Int) (page : Nat)
    (pages : List (List PullRequest)) :
    (closedGo cfg env since page pages).err = none := by
  induction pages generalizing page with
  | nil => rfl
  | cons p rest ih =>
    have hrl : (runList (branchPrStep cfg env since) p).err = none :=
      (runList_err_none_iff _ _).mpr (fun pr _ => branchPrStep_err_none cfg env since pr)
    by_cases hemp : p.isEmpty
    · simp [closedGo, hemp]
    · by_cases hwin : pageWithin since p
      · simp only [closedGo, if_neg hemp, if_pos hwin]
        rw [show (⟨Event.pageRequestClosed page ::
            (RunOut.seq (runList (branchPrStep cfg env since) p) (closedGo cfg env since (page + 1) rest)).events,
            (RunOut.seq (runList (branchPrStep cfg env since) p) (closedGo cfg env since (page + 1) rest)).reminders,
            (RunOut.seq (runList (branchPrStep cfg env since) p) (closedGo cfg env since (page + 1) rest)).err⟩ :
            RunOut).err =
          (RunOut.seq (runList (branchPrStep cfg env since) p) (closedGo cfg env since (page + 1) rest)).err
          from rfl]
        rw [seq_err_none]
        exact ⟨hrl, ih (page + 1)⟩
      · simp only [closedGo, if_neg hemp, if_neg hwin]
        exact hrl

theorem closedGo_reminders_eq (cfg : Config) (env : RepoEnv) (since : Int) (page : Nat)
    (pages : List (List PullRequest)) :
    (closedGo cfg env since page pages).reminders =
      (processedClosed since pages).filterMap (branchDecision env since) := by
  induction pages generalizing page with
  | nil => simp [closedGo, processedClosed]
  | cons p rest ih =>
    have hrl : (runList (branchPrStep cfg env since) p).err = none :=
      (runList_err_none_iff _ _).mpr (fun pr _ => branchPrStep_err_none cfg env since pr)
    have hfm : (runList (branchPrStep cfg env since) p).reminders =
        p.filterMap (branchDecision env since) :=
      runList_filterMap _ _ _ (fun pr _ => branchPrStep_err_none cfg env since pr)
        (fun pr _ => branchPrStep_reminders cfg env since pr)
    by_cases hemp : p.isEmpty
    · simp [closedGo, processedClosed, hemp]
    · by_cases hwin : pageWithin since p
      · simp only [closedGo, processedClosed, if_neg hemp, if_pos hwin]
        rw [show (⟨Event.pageRequestClosed page ::
            (RunOut.seq (runList (branchPrStep cfg env since) p) (closedGo cfg env since (page + 1) rest)).events,
            (RunOut.seq (runList (branchPrStep cfg env since) p) (closedGo cfg env since (page + 1) rest)).reminders,
            (RunOut.seq (runList (branchPrStep cfg env since) p) (closedGo cfg env since (page + 1) rest)).err⟩ :
            RunOut).reminders =
          (RunOut.seq (runList (branchPrStep cfg env since) p) (closedGo cfg env since (page + 1) rest)).reminders
          from rfl]
        rw [seq_of_err_none hrl]
        simp only [List.filterMap_append]
        rw [hfm, ih (page + 1)]
      · simp only [closedGo, processedClosed, if_neg hemp, if_neg hwin]
        exact hfm

theorem closedGo_mem_iff (cfg : Config) (env : RepoEnv) (since : Int) (page : Nat)
    (pages : List (List PullRequest)) (e : Event)
    (hnp : ∀ j, e ≠ .pageRequestClosed j) :
    e ∈ (closedGo cfg env since page pages).events ↔
      ∃ pr ∈ processedClosed since pages, e ∈ (branchPrStep cfg env since pr).events := by
  induction pages generalizing page with
  | nil => simp [closedGo, processedClosed, hnp page]
  | cons p rest ih =>
    have hrl : (runList (branchPrStep cfg env since) p).err = none :=
      (runList_err_none_iff _ _).mpr (fun pr _ => branchPrStep_err_none cfg env since pr)
    have hev : (runList (branchPrStep cfg env since) p).events =
        (p.map (fun pr => (branchPrStep cfg env since pr).events)).flatten :=
      runList_events_eq _ _ (fun pr _ => branchPrStep_err_none cfg env since pr)
    by_cases hemp : p.isEmpty
    · simp [closedGo, processedClosed, hemp, hnp page]
    · by_cases hwin : pageWithin since p
      · simp only [closedGo, processedClosed, if_neg hemp, if_pos hwin]
        rw [seq_of_err_none hrl]
        simp only [List.mem_cons, List.mem_append, hev, List.mem_flatten, List.mem_map,
          ih (page + 1)]
        constructor
        · rintro (habs | h | h)
          · exact absurd habs (hnp page)
          · aesop
          · aesop
        · aesop
      · simp only [closedGo, processedClosed, if_neg hemp, if_neg hwin]
        simp only [List.mem_cons, hev, List.mem_flatten, List.mem_map]
        constructor
        · rintro (habs | h)
          · exact absurd habs (hnp page)
          · aesop
        · aesop

theorem closedGo_page_self (cfg : Config) (env : RepoEnv) (since : Int) (page : Nat)
    (pages : List (List PullRequest)) :
    Event.pageRequestClosed page ∈ (closedGo cfg env since page pages).events := by
  cases pages with
  | nil => simp [closedGo]
  | cons p rest =>
    by_cases hemp : p.isEmpty
    · simp only [closedGo, if_pos hemp]
      exact List.mem_singleton.mpr rfl
    · by_cases hwin : pageWithin since p
      · simp only [closedGo, if_neg hemp, if_pos hwin]
        exact List.mem_cons_self _ _
      · simp only [closedGo, if_neg hemp, if_neg hwin]
        exact List.mem_cons_self _ _

theorem runList_branch_no_page (cfg : Config) (env : RepoEnv) (since : Int)
    (p : List PullRequest) (j : Nat) :
    Event.pageRequestClosed j ∉ (runList (branchPrStep cfg env since) p).events := by
  intro h
  rcases runList_events_sub h with ⟨pr, _, hev⟩
  exact branchPrStep_no_page cfg env since pr j hev

theorem closedGo_stop (cfg : Config) (env : RepoEnv) (since : Int)
    (pages : List (List PullRequest)) (start k : Nat) (p : List PullRequest)
    (hk : pages.get? k = some p) (hw : pageWithin since p = false) :
    Event.pageRequestClosed (start + k + 1) ∉ (closedGo cfg env since start pages).events := by
  induction pages generalizing start k with
  | nil => simp at hk
  | cons q rest ih =>
    intro hmem
    by_cases hemp : q.isEmpty
    · simp only [closedGo, if_pos hemp, List.mem_singleton] at hmem
      injection hmem with h
      omega
    · by_cases hwin : pageWithin since q
      · cases k with
        | zero =>
          simp only [List.get?_cons_zero, Option.some_inj] at hk
          subst hk
          rw [hwin] at hw
          simp at hw
        | succ k0 =>
          simp only [closedGo, if_neg hemp, if_pos hwin] at hmem
          rw [seq_of_err_none ((runList_err_none_iff _ _).mpr
            (fun pr _ => branchPrStep_err_none cfg env since pr))] at hmem
          simp only [List.mem_cons, List.mem_append] at hmem
          rcases hmem with habs | hbody | hrec
          · injection habs with h
            omega
          · exact runList_branch_no_page cfg env since q _ hbody
          · have hk0 : rest.get? k0 = some p := by simpa using hk
            have := ih (start + 1) k0 hk0
            rw [show start + 1 + k0 + 1 = start + (k0 + 1) + 1 by omega] at this
            exact this hrec
      · simp only [closedGo, if_neg hemp, if_neg hwin, List.mem_cons] at hmem
        rcases hmem with habs | hbody
        · injection habs with h
          omega
        · exact runList_branch_no_page cfg env since q _ hbody

theorem closedGo_cont (cfg : Config) (env : RepoEnv) (since : Int)
    (pages : List (List PullRequest)) (start k : Nat) (p : List PullRequest)
    (hk : pages.get? k = some p) (hw : pageWithin since p = true)
    (hreq : Event.pageRequestClosed (start + k) ∈ (closedGo cfg env since start pages).events) :
    Event.pageRequestClosed (start + k + 1) ∈ (closedGo cfg env since start pages).events := by
  induction pages generalizing start k with
  | nil => simp at hk
  | cons q rest ih =>
    by_cases hemp : q.isEmpty
    · simp only [closedGo, if_pos hemp, List.mem_singleton] at hreq
      injection hreq with h
      have hk0 : k = 0 := by omega
      subst hk0
      simp only [List.get?_cons_zero, Option.some_inj] at hk
      subst hk
      rw [List.isEmpty_iff.mp hemp] at hw
      simp [pageWithin] at hw
    · by_cases hwin : pageWithin since q
      · simp only [closedGo, if_neg hemp, if_pos hwin] at hreq ⊢
        rw [seq_of_err_none ((runList_err_none_iff _ _).mpr
          (fun pr _ => branchPrStep_err_none cfg env since pr))] at hreq ⊢
        simp only [List.mem_cons, List.mem_append] at hreq ⊢
        cases k with
        | zero =>
          refine Or.inr (Or.inr ?_)
          have := closedGo_page_self cfg env since (start + 1) rest
          simpa using this
        | succ k0 =>
          rcases hreq with habs | hbody | hrec
          · exfalso
            injection habs with h
            omega
          · exact absurd hbody (runList_branch_no_page cfg env since q _)
          · refine Or.inr (Or.inr ?_)
            have hk0 : rest.get? k0 = some p := by simpa using hk
            have hreq0 : Event.pageRequestClosed (start + 1 + k0) ∈
                (closedGo cfg env since (start + 1) rest).events := by
              rw [show start + 1 + k0 = start + (k0 + 1) by omega]
              exact hrec
            have := ih (start + 1) k0 hk0 hreq0
            rw [show start + 1 + k0 + 1 = start + (k0 + 1) + 1 by omega] at this
            exact this
      · exfalso
        simp only [closedGo, if_neg hemp, if_neg hwin, List.mem_cons] at hreq
        rcases hreq with habs | hbody
        · injection habs with h
          have hk0 : k = 0 := by omega
          subst hk0
          simp only [List.get?_cons_zero, Option.some_inj] at hk
          subst hk
          exact hwin hw
        · exact runList_branch_no_page cfg env since q _ hbody

theorem notifyUndeleted_err (cfg : Config) (env : RepoEnv) (now : Int) :
    (notifyUndeletedBranches cfg env now).err = none :=
  closedGo_err_none cfg env (sinceOf cfg now) 1 env.closedPages

theorem notifyUndeleted_reminders (cfg : Config) (env : RepoEnv) (now : Int) :
    (notifyUndeletedBranches cfg env now).reminders =
      (processedClosed (sinceOf cfg now) env.closedPages).filterMap
        (branchDecision env (sinceOf cfg now)) :=
  closedGo_reminders_eq cfg env (sinceOf cfg now) 1 env.closedPages

theorem notifyUndeleted_events (cfg : Config) (env : RepoEnv) (now : Int) :
    (notifyUndeletedBranches cfg env now).events =
      Event.checkingClosed :: (closedGo cfg env (sinceOf cfg now) 1 env.closedPages).events := rfl

theorem processedClosed_sub (since : Int) (pages : List (List PullRequest))
    {pr : PullRequest} (h : pr ∈ processedClosed since pages) : pr ∈ pages.flatten := by
  induction pages with
  | nil => simp [processedClosed] at h
  | cons p rest ih =>
    by_cases hemp : p.isEmpty
    · simp [processedClosed, hemp] at h
    · by_cases hwin : pageWithin since p
      · simp only [processedClosed, if_neg hemp, if_pos hwin] at h
        rcases List.mem_append.mp h with h1 | h1
        · exact List.mem_flatten.mpr ⟨p, by simp, h1⟩
        · rcases List.mem_flatten.mp (ih h1) with ⟨l, hl, hel⟩
          exact List.mem_flatten.mpr ⟨l, by simp [hl], hel⟩
      · simp only [processedClosed, if_neg hemp, if_neg hwin] at h
        exact List.mem_flatten.mpr ⟨p, by simp, h⟩

theorem branchDecision_eq_some {env : RepoEnv} {since : Int} {pr : PullRequest} {a : Action} :
    branchDecision env since pr = some a ↔
      (¬ pr.updatedAt < since ∧ pr.mergedAt.isSome = true ∧
        env.refResult pr.headBranch = .ok ∧
        a = .branchCleanup pr.number pr.headBranch pr.author) := by
  unfold branchDecision
  split
  · rename_i hold
    simp [hold]
  · rename_i hold
    split
    · rename_i hm
      cases href : env.refResult pr.headBranch with
      | ok =>
        constructor
        · intro h2
          exact ⟨hold, hm, rfl, (Option.some_inj.mp h2).symm⟩
        · rintro ⟨-, -, -, rfl⟩
          rfl
      | err s => simp [href]
    · rename_i hm
      simp [hold, hm]

theorem branchDecision_forPr {env : RepoEnv} {since : Int} {pr : PullRequest} {a : Action}
    (h : branchDecision env since pr = some a) (n : Nat) :
    actionForPr n a = (pr.number == n) := by
  rcases branchDecision_eq_some.mp h with ⟨-, -, -, rfl⟩
  rfl

theorem countP_filterMap_branch (env : RepoEnv) (since : Int) (n : Nat)
    (l : List PullRequest)
    (hzero : ∀ q ∈ l, q.number ≠ n) :
    (l.filterMap (branchDecision env since)).countP (actionForPr n) = 0 := by
  rw [List.countP_eq_zero]
  intro a ha
  rcases List.mem_filterMap.mp ha with ⟨q, hq, hdec⟩
  rw [branchDecision_forPr hdec n]
  simpa using hzero q hq

theorem countP_filterMap_branch_unique (env : RepoEnv) (since : Int)
    (l : List PullRequest) (pr : PullRequest)
    (hnd : (l.map PullRequest.number).Nodup) (hpr : pr ∈ l) :
    (l.filterMap (branchDecision env since)).countP (actionForPr pr.number) =
      if (branchDecision env since pr).isSome then 1 else 0 := by
  induction l with
  | nil => simp at hpr
  | cons q t ih =>
    simp only [List.map_cons, List.nodup_cons] at hnd
    rcases List.mem_cons.mp hpr with rfl | hprt
    · have ht : (t.filterMap (branchDecision env since)).countP (actionForPr pr.number) = 0 := by
        refine countP_filterMap_branch env since pr.number t (fun q2 hq2 h2 => ?_)
        exact hnd.1 (h2 ▸ List.mem_map_of_mem PullRequest.number hq2)
      rw [List.filterMap_cons]
      cases hdec : branchDecision env since pr with
      | none => simp [ht, hdec]
      | some a =>
        rw [List.countP_cons, ht, branchDecision_forPr hdec pr.number]
        simp [hdec]
    · have hqn : q.number ≠ pr.number := by
        intro h2
        exact hnd.1 (h2 ▸ List.mem_map_of_mem PullRequest.number hprt)
      rw [List.filterMap_cons]
      cases hdec : branchDecision env since q with
      | none => exact ih hnd.2 hprt
      | some a =>
        rw [List.countP_cons, branchDecision_forPr hdec pr.number]
        simp only [beq_iff_eq]
        rw [if_neg hqn]
        simpa using ih hnd.2 hprt

theorem branchDecision_isSome {env : RepoEnv} {since : Int} {pr : PullRequest} :
    (branchDecision env since pr).isSome = true ↔
      (¬ pr.updatedAt < since ∧ pr.mergedAt.isSome = true ∧
        env.refResult pr.headBranch = .ok) := by
  rw [Option.isSome_iff_exists]
  constructor
  · rintro ⟨a, ha⟩
    rcases branchDecision_eq_some.mp ha with ⟨h1, h2, h3, -⟩
    exact ⟨h1, h2, h3⟩
  · rintro ⟨h1, h2, h3⟩
    exact ⟨_, branchDecision_eq_some.mpr ⟨h1, h2, h3, rfl⟩⟩

theorem notifyInactive_reminders_eq (cfg : Config) (env : RepoEnv) (now : Int)
    (hok : (notifyInactiveReviewers cfg env now).err = none) :
    (notifyInactiveReviewers cfg env now).reminders =
      ((processedOpen env.openPages).map (fun pr =>
        pr.requestedReviewers.filterMap
          (reviewerDecision cfg.reviewHours (env.reviews pr.number) now pr))).flatten :=
  openGo_reminders_eq cfg env now 1 env.openPages hok

theorem seq_events_left {a b : RunOut} {e : Event} (h : e ∈ a.events) :
    e ∈ (RunOut.seq a b).events := by
  cases ha : a.err with
  | none =>
    rw [seq_of_err_none ha]
    exact List.mem_append.mpr (Or.inl h)
  | some s => simpa [RunOut.seq, ha] using h

theorem notifyInactive_events (cfg : Config) (env : RepoEnv) (now : Int) :
    (notifyInactiveReviewers cfg env now).events =
      Event.checkingOpen :: (openGo cfg env now 1 env.openPages).events := rfl

theorem processRepo_checkingOpen (cfg : Config) (env : RepoEnv) (now : Int) :
    Event.checkingOpen ∈ (processRepo cfg env now).events :=
  seq_events_left (by rw [notifyInactive_events]; exact List.mem_cons_self _ _)

theorem mainRun_cons (cfg : Config) (renv : RepoRef → RepoEnv) (now : Int)
    (q : RepoRef) (rs : List RepoRef) :
    (mainRun cfg renv now (q :: rs)).events =
      (processRepo cfg (renv q) now).events.map (fun e => (q, e)) ++
        (match (processRepo cfg (renv q) now).err with
          | none => []
          | some s => [(q, Event.errorProcessingRepo s)]) ++
        (mainRun cfg renv now rs).events := by
  simp only [mainRun]
  cases (processRepo cfg (renv q) now).err <;> simp

theorem mainRun_attempted (cfg : Config) (renv : RepoRef → RepoEnv) (now : Int)
    (repos : List RepoRef) :
    ∀ r ∈ repos, (r, Event.checkingOpen) ∈ (mainRun cfg renv now repos).events := by
  induction repos with
  | nil => simp
  | cons q rs ih =>
    intro r hr
    rw [mainRun_cons]
    rcases List.mem_cons.mp hr with rfl | hr2
    · exact List.mem_append.mpr (Or.inl (List.mem_append.mpr (Or.inl
        (List.mem_map_of_mem _ (processRepo_checkingOpen cfg (renv r) now)))))
    · exact List.mem_append.mpr (Or.inr (ih r hr2))

theorem mainRun_error_logged (cfg : Config) (renv : RepoRef → RepoEnv) (now : Int)
    (repos : List RepoRef) :
    ∀ r ∈ repos, ∀ s, (processRepo cfg (renv r) now).err = some s →
      (r, Event.errorProcessingRepo s) ∈ (mainRun cfg renv now repos).events := by
  induction repos with
  | nil => simp
  | cons q rs ih =>
    intro r hr s he
    rw [mainRun_cons]
    rcases List.mem_cons.mp hr with rfl | hr2
    · rw [he]
      exact List.mem_append.mpr (Or.inl (List.mem_append.mpr (Or.inr (by simp))))
    · exact List.mem_append.mpr (Or.inr (ih r hr2 s he))

theorem prStepOpen_err_none_iff (cfg : Config) (env : RepoEnv) (now : Int) (pr : PullRequest) :
    (prStepOpen cfg env now pr).err = none ↔
      ∀ login ∈ pr.requestedReviewers,
        (reviewerStep cfg env now pr (env.reviews pr.number) login).err = none := by
  unfold prStepOpen
  split
  · rename_i hemp
    rw [List.isEmpty_iff] at hemp
    simp [hemp]
  · exact runList_err_none_iff _ _

/-! ## The claims -/

/-- C1: For every open pull request reached by pagination and every requested
reviewer R on it, a ReviewerReminder for R is emitted iff R has no review
record on that PR and the hours since the PR was created strictly exceed the
review-hours threshold; equality with the threshold and any existing review
both prevent the reminder. -/
theorem C1_reviewer_reminder_iff (cfg : Config) (env : RepoEnv) (now : Int)
    (pr : PullRequest) (login : String)
    (hpr : pr ∈ processedOpen env.openPages)
    (hnd : ((processedOpen env.openPages).map PullRequest.number).Nodup)
    (hok : (notifyInactiveReviewers cfg env now).err = none) :
    Action.reviewerReminder pr.number login (hoursSince now pr.createdAt) ∈
        (notifyInactiveReviewers cfg env now).reminders ↔
      (login ∈ pr.requestedReviewers ∧
        hasReviewBy (env.reviews pr.number) login = false ∧
        hoursSince now pr.createdAt > cfg.reviewHours) := by
  rw [notifyInactive_reminders_eq cfg env now hok, List.mem_flatten]
  constructor
  · rintro ⟨l, hl, hal⟩
    rcases List.mem_map.mp hl with ⟨q, hq, rfl⟩
    rcases List.mem_filterMap.mp hal with ⟨login2, hlog2, hdec⟩
    rcases reviewerDecision_eq_some.mp hdec with ⟨hrev, hgt, heq⟩
    injection heq with h1 h2 h3
    have hq_eq : q = pr := List.inj_on_of_nodup_map hnd hq hpr h1.symm
    subst hq_eq
    subst h2
    exact ⟨hlog2, hrev, hgt⟩
  · rintro ⟨hlog, hrev, hgt⟩
    exact ⟨pr.requestedReviewers.filterMap
        (reviewerDecision cfg.reviewHours (env.reviews pr.number) now pr),
      List.mem_map_of_mem _ hpr,
      List.mem_filterMap.mpr ⟨login, hlog, reviewerDecision_eq_some.mpr ⟨hrev, hgt, rfl⟩⟩⟩

/-- Witness for C1: bob (no review, 13h > 12h) is reminded on PR 1, while on
PR 2, created exactly 12h before the scan, he is not. -/
theorem C1_reviewer_reminder_iff_witness :
    (Action.reviewerReminder c1PR.number "bob" (hoursSince 46800000 c1PR.createdAt) ∈
        (notifyInactiveReviewers c1Cfg c1Env 46800000).reminders) ∧
      Action.reviewerReminder c1PRb.number "bob" (hoursSince 46800000 c1PRb.createdAt) ∉
        (notifyInactiveReviewers c1Cfg c1Env 46800000).reminders :=
  ⟨(C1_reviewer_reminder_iff c1Cfg c1Env 46800000 c1PR "bob" (by decide) (by decide)
      (by decide)).mpr ⟨by decide, by decide, by decide⟩,
   fun h => absurd ((C1_reviewer_reminder_iff c1Cfg c1Env 46800000 c1PRb "bob" (by decide)
      (by decide) (by decide)).mp h) (by decide)⟩

/-- C2: during the branch-cleanup scan, no merged PR whose `updatedAt` is
older than `since` is ever checked for branch existence, pagination stops as
soon as a page has no PR within the window, and requests the next page
whenever some PR of the page is within the window. -/
theorem C2_branch_pagination (cfg : Config) (env : RepoEnv) (now : Int) :
    (∀ pr ∈ env.closedPages.flatten,
        (env.closedPages.flatten.map PullRequest.number).Nodup →
        pr.updatedAt < sinceOf cfg now →
        ∀ b, Event.refCheck pr.number b ∉ (notifyUndeletedBranches cfg env now).events) ∧
      (∀ k p, env.closedPages.get? k = some p →
        pageWithin (sinceOf cfg now) p = false →
        Event.pageRequestClosed (k + 2) ∉ (notifyUndeletedBranches cfg env now).events) ∧
      (∀ k p, env.closedPages.get? k = some p →
        pageWithin (sinceOf cfg now) p = true →
        Event.pageRequestClosed (k + 1) ∈ (notifyUndeletedBranches cfg env now).events →
        Event.pageRequestClosed (k + 2) ∈ (notifyUndeletedBranches cfg env now).events) := by
  refine ⟨?_, ?_, ?_⟩
  · intro pr hpr hnd hold b hmem
    rw [notifyUndeleted_events] at hmem
    rcases List.mem_cons.mp hmem with habs | hmem2
    · cases habs
    · rcases (closedGo_mem_iff cfg env (sinceOf cfg now) 1 env.closedPages _
        (fun j h => by cases h)).mp hmem2 with ⟨pr2, hpr2, hev⟩
      rcases (branchPrStep_refCheck_mem cfg env (sinceOf cfg now) pr2 pr.number b).mp hev
        with ⟨hwin2, -, hn2, -⟩
      have hpr2f : pr2 ∈ env.closedPages.flatten :=
        processedClosed_sub (sinceOf cfg now) env.closedPages hpr2
      have : pr = pr2 := List.inj_on_of_nodup_map hnd hpr hpr2f hn2
      subst this
      exact hwin2 hold
  · intro k p hk hw hmem
    rw [notifyUndeleted_events] at hmem
    rcases List.mem_cons.mp hmem with habs | hmem2
    · cases habs
    · have := closedGo_stop cfg env (sinceOf cfg now) env.closedPages 1 k p hk hw
      rw [show 1 + k + 1 = k + 2 by omega] at this
      exact this hmem2
  · intro k p hk hw hreq
    rw [notifyUndeleted_events] at hreq ⊢
    rcases List.mem_cons.mp hreq with habs | hreq2
    · cases habs
    · have := closedGo_cont cfg env (sinceOf cfg now) env.closedPages 1 k p hk hw
        (by rw [show 1 + k = k + 1 by omega]; exact hreq2)
      rw [show 1 + k + 1 = k + 2 by omega] at this
      exact List.mem_cons.mpr (Or.inr this)

/-- Witness for C2: with a recent first page and an old second page, the old
PR is never ref-checked, page 3 is never requested, and page 2 is requested
because page 1 is within the window. -/
theorem C2_branch_pagination_witness :
    (Event.refCheck c2Old.number "f2" ∉
        (notifyUndeletedBranches c2Cfg c2Env 1000000000).events) ∧
      (Event.pageRequestClosed 3 ∉
        (notifyUndeletedBranches c2Cfg c2Env 1000000000).events) ∧
      (Event.pageRequestClosed 2 ∈
        (notifyUndeletedBranches c2Cfg c2Env 1000000000).events) :=
  ⟨(C2_branch_pagination c2Cfg c2Env 1000000000).1 c2Old (by decide) (by decide) (by decide) "f2",
   (C2_branch_pagination c2Cfg c2Env 1000000000).2.1 1 [c2Old] (by decide) (by decide),
   (C2_branch_pagination c2Cfg c2Env 1000000000).2.2 0 [c2New] (by decide) (by decide) (by decide)⟩

/-- C3: for a merged PR within the window reached by the scan: branch exists
gives exactly one cleanup reminder; a 404 on the ref lookup gives no reminder
and no error log; any other lookup failure gives no reminder, is logged with
its status, and does not abort the scan. -/
theorem C3_branch_reminder_cases (cfg : Config) (env : RepoEnv) (now : Int) (pr : PullRequest)
    (hpr : pr ∈ processedClosed (sinceOf cfg now) env.closedPages)
    (hnd : ((processedClosed (sinceOf cfg now) env.closedPages).map PullRequest.number).Nodup)
    (hwin : ¬ pr.updatedAt < sinceOf cfg now)
    (hm : pr.mergedAt.isSome = true) :
    (env.refResult pr.headBranch = .ok →
        (notifyUndeletedBranches cfg env now).reminders.countP (actionForPr pr.number) = 1) ∧
      (env.refResult pr.headBranch = .err 404 →
        (notifyUndeletedBranches cfg env now).reminders.countP (actionForPr pr.number) = 0 ∧
        ∀ s, Event.errorCheckingRef pr.number pr.headBranch s ∉
          (notifyUndeletedBranches cfg env now).events) ∧
      (∀ s, env.refResult pr.headBranch = .err s → s ≠ 404 →
        (notifyUndeletedBranches cfg env now).reminders.countP (actionForPr pr.number) = 0 ∧
        Event.errorCheckingRef pr.number pr.headBranch s ∈
          (notifyUndeletedBranches cfg env now).events ∧
        (notifyUndeletedBranches cfg env now).err = none) := by
  have hcount : (notifyUndeletedBranches cfg env now).reminders.countP (actionForPr pr.number) =
      if (branchDecision env (sinceOf cfg now) pr).isSome then 1 else 0 := by
    rw [notifyUndeleted_reminders]
    exact countP_filterMap_branch_unique env (sinceOf cfg now) _ pr hnd hpr
  refine ⟨?_, ?_, ?_⟩
  · intro href
    rw [hcount, if_pos (branchDecision_isSome.mpr ⟨hwin, hm, href⟩)]
  · intro href
    constructor
    · rw [hcount, if_neg]
      intro habs
      rcases branchDecision_isSome.mp habs with ⟨-, -, h3⟩
      rw [href] at h3
      cases h3
    · intro s hmem
      rw [notifyUndeleted_events] at hmem
      rcases List.mem_cons.mp hmem with habs | hmem2
      · cases habs
      · rcases (closedGo_mem_iff cfg env (sinceOf cfg now) 1 env.closedPages _
          (fun j h => by cases h)).mp hmem2 with ⟨pr2, hpr2, hev⟩
        rcases (branchPrStep_errRef_mem cfg env (sinceOf cfg now) pr2 pr.number
          pr.headBranch s).mp hev with ⟨-, -, hn2, hb2, hs404, hdisj⟩
        have : pr = pr2 := List.inj_on_of_nodup_map hnd hpr hpr2 hn2
        subst this
        rcases hdisj with h | ⟨h, -, -⟩
        · rw [href] at h
          injection h with h2
          exact hs404 h2.symm
        · rw [href] at h
          cases h
  · intro s href hs
    refine ⟨?_, ?_, notifyUndeleted_err cfg env now⟩
    · rw [hcount, if_neg]
      intro habs
      rcases branchDecision_isSome.mp habs with ⟨-, -, h3⟩
      rw [href] at h3
      cases h3
    · rw [notifyUndeleted_events]
      refine List.mem_cons.mpr (Or.inr ?_)
      refine (closedGo_mem_iff cfg env (sinceOf cfg now) 1 env.closedPages _
        (fun j h => by cases h)).mpr ⟨pr, hpr, ?_⟩
      exact (branchPrStep_errRef_mem cfg env (sinceOf cfg now) pr pr.number
        pr.headBranch s).mpr ⟨hwin, hm, rfl, rfl, hs, Or.inl href⟩

/-- Witness for C3: branch `b1` exists (one reminder), `b2` is deleted (no
reminder and no error log), `b3` fails with 500 (logged, scan not aborted). -/
theorem C3_branch_reminder_cases_witness :
    ((notifyUndeletedBranches c3Cfg c3Env 0).reminders.countP (actionForPr 1) = 1) ∧
      ((notifyUndeletedBranches c3Cfg c3Env 0).reminders.countP (actionForPr 2) = 0) ∧
      (Event.errorCheckingRef 3 "b3" 500 ∈ (notifyUndeletedBranches c3Cfg c3Env 0).events) :=
  ⟨(C3_branch_reminder_cases c3Cfg c3Env 0 c3P1 (by decide) (by decide) (by decide)
      (by decide)).1 (by decide),
   ((C3_branch_reminder_cases c3Cfg c3Env 0 c3P2 (by decide) (by decide) (by decide)
      (by decide)).2.1 (by decide)).1,
   ((C3_branch_reminder_cases c3Cfg c3Env 0 c3P3 (by decide) (by decide) (by decide)
      (by decide)).2.2 500 (by decide) (by decide)).2.1⟩

/-- C10: in live mode, a failing cleanup-comment call is handled by the same
catch as the ref lookup: a 404 is silently ignored (no error log for that
PR), any other failure is logged as a ref-check error with the comment status,
and the scan never aborts. -/
theorem C10_comment_failure_shared_catch (cfg : Config) (env : RepoEnv) (now : Int)
    (pr : PullRequest)
    (hdry : cfg.dryRun = false)
    (hpr : pr ∈ processedClosed (sinceOf cfg now) env.closedPages)
    (hnd : ((processedClosed (sinceOf cfg now) env.closedPages).map PullRequest.number).Nodup)
    (hwin : ¬ pr.updatedAt < sinceOf cfg now)
    (hm : pr.mergedAt.isSome = true)
    (href : env.refResult pr.headBranch = .ok) :
    (env.commentResult pr.number (branchBody pr.author pr.headBranch) = some 404 →
        ∀ s, Event.errorCheckingRef pr.number pr.headBranch s ∉
          (notifyUndeletedBranches cfg env now).events) ∧
      (∀ s, env.commentResult pr.number (branchBody pr.author pr.headBranch) = some s →
        s ≠ 404 →
        Event.errorCheckingRef pr.number pr.headBranch s ∈
          (notifyUndeletedBranches cfg env now).events) ∧
      (notifyUndeletedBranches cfg env now).err = none := by
  refine ⟨?_, ?_, notifyUndeleted_err cfg env now⟩
  · intro hc s hmem
    rw [notifyUndeleted_events] at hmem
    rcases List.mem_cons.mp hmem with habs | hmem2
    · cases habs
    · rcases (closedGo_mem_iff cfg env (sinceOf cfg now) 1 env.closedPages _
        (fun j h => by cases h)).mp hmem2 with ⟨pr2, hpr2, hev⟩
      rcases (branchPrStep_errRef_mem cfg env (sinceOf cfg now) pr2 pr.number
        pr.headBranch s).mp hev with ⟨-, -, hn2, -, hs404, hdisj⟩
      have : pr = pr2 := List.inj_on_of_nodup_map hnd hpr hpr2 hn2
      subst this
      rcases hdisj with h | ⟨-, -, h⟩
      · rw [href] at h
        cases h
      · rw [hc] at h
        injection h with h2
        exact hs404 h2.symm
  · intro s hc hs
    rw [notifyUndeleted_events]
    refine List.mem_cons.mpr (Or.inr ?_)
    refine (closedGo_mem_iff cfg env (sinceOf cfg now) 1 env.closedPages _
      (fun j h => by cases h)).mpr ⟨pr, hpr, ?_⟩
    exact (branchPrStep_errRef_mem cfg env (sinceOf cfg now) pr pr.number
      pr.headBranch s).mpr ⟨hwin, hm, rfl, rfl, hs, Or.inr ⟨href, hdry, hc⟩⟩

/-- Witness for C10: PR 1 whose comment fails with 404 is silently skipped,
PR 2 whose comment fails with 500 is logged as a ref-check error, and the
scan finishes without an uncaught error. -/
theorem C10_comment_failure_shared_catch_witness :
    (Event.errorCheckingRef 1 "b1" 500 ∉ (notifyUndeletedBranches c10Cfg c10Env 0).events) ∧
      (Event.errorCheckingRef 2 "b2" 500 ∈ (notifyUndeletedBranches c10Cfg c10Env 0).events) ∧
      (notifyUndeletedBranches c10Cfg c10Env 0).err = none :=
  ⟨(C10_comment_failure_shared_catch c10Cfg c10Env 0 c10P1 (by decide) (by decide) (by decide)
      (by decide) (by decide) (by decide)).1 (by decide) 500,
   (C10_comment_failure_shared_catch c10Cfg c10Env 0 c10P2 (by decide) (by decide) (by decide)
      (by decide) (by decide) (by decide)).2.1 500 (by decide) (by decide),
   (C10_comment_failure_shared_catch c10Cfg c10Env 0 c10P1 (by decide) (by decide) (by decide)
      (by decide) (by decide) (by decide)).2.2⟩

/-- C4 counterexample: in live mode with every comment post failing with 500,
the reviewer engine does NOT continue with the next reviewer of the same PR:
the error escapes the engine (err = some 500), bob is never posted to and his
reminder is never decided, contradicting the claim that a comment failure
never propagates past the executor boundary. -/
theorem C4_executor_boundary_counterexample :
    (notifyInactiveReviewers c4Cfg c4Env 46800000).err = some 500 ∧
      Event.commentCall 1 (reviewerBody "bob" (hoursSince 46800000 0) 12) ∉
        (notifyInactiveReviewers c4Cfg c4Env 46800000).events ∧
      Action.reviewerReminder 1 "bob" (hoursSince 46800000 0) ∉
        (notifyInactiveReviewers c4Cfg c4Env 46800000).reminders := by
  decide

/-- C4 (amended): in live mode, a branch-cleanup comment failure never
escapes the engine (its per-PR catch absorbs it), but a reviewer-reminder
comment failure escapes the reviewer engine; it is caught only at the
per-repository boundary of the orchestrator, which logs it with its status
and continues with the remaining repositories (all of which are attempted). -/
theorem C4_executor_boundary_amended (cfg : Config) (renv : RepoRef → RepoEnv) (now : Int) :
    (∀ env2 : RepoEnv, (notifyUndeletedBranches cfg env2 now).err = none) ∧
      (∀ env2 : RepoEnv, cfg.dryRun = false →
        (∃ pr ∈ processedOpen env2.openPages, ∃ login ∈ pr.requestedReviewers,
          (reviewerDecision cfg.reviewHours (env2.reviews pr.number) now pr login).isSome = true ∧
          (env2.commentResult pr.number
            (reviewerBody login (hoursSince now pr.createdAt) cfg.reviewHours)).isSome = true) →
        (notifyInactiveReviewers cfg env2 now).err.isSome = true) ∧
      (∀ repos : List RepoRef, ∀ r ∈ repos, ∀ s,
        (processRepo cfg (renv r) now).err = some s →
        (r, Event.errorProcessingRepo s) ∈ (mainRun cfg renv now repos).events ∧
        ∀ r2 ∈ repos, (r2, Event.checkingOpen) ∈ (mainRun cfg renv now repos).events) := by
  refine ⟨fun env2 => notifyUndeleted_err cfg env2 now, ?_, ?_⟩
  · rintro env2 hdry ⟨pr, hpr, login, hlogin, hdec, hcomm⟩
    rw [Option.isSome_iff_exists] at hdec hcomm ⊢
    by_contra hnone
    push_neg at hnone
    have hok : (notifyInactiveReviewers cfg env2 now).err = none := by
      cases he : (notifyInactiveReviewers cfg env2 now).err with
      | none => rfl
      | some s => exact absurd he (hnone s)
    have hstep := (prStepOpen_err_none_iff cfg env2 now pr).mp
      (((openGo_err_none_iff cfg env2 now 1 env2.openPages).mp hok) pr hpr) login hlogin
    rcases (reviewerStep_err_none cfg env2 now pr (env2.reviews pr.number) login).mp hstep
      with h | h | h
    · rcases hdec with ⟨a, ha⟩
      rw [h] at ha
      cases ha
    · rw [hdry] at h
      cases h
    · rcases hcomm with ⟨s, hs⟩
      rw [h] at hs
      cases hs
  · intro repos r hr s he
    exact ⟨mainRun_error_logged cfg renv now repos r hr s he,
      fun r2 hr2 => mainRun_attempted cfg renv now repos r2 hr2⟩

/-- Witness for the amended C4: in the concrete failing scenario the reviewer
engine aborts with status 500, and the orchestrator logs it for repository
`ra` while still attempting repository `rb`. -/
theorem C4_executor_boundary_amended_witness :
    (notifyInactiveReviewers c6Cfg c6EnvFail 46800000).err.isSome = true ∧
      ((c6RA, Event.errorProcessingRepo 500) ∈
        (mainRun c6Cfg c6Renv 46800000 [c6RA, c6RB]).events) ∧
      ((c6RB, Event.checkingOpen) ∈ (mainRun c6Cfg c6Renv 46800000 [c6RA, c6RB]).events) :=
  ⟨(C4_executor_boundary_amended c6Cfg c6Renv 46800000).2.1 c6EnvFail (by decide)
      ⟨c6PR, by decide, "alice", by decide, by decide, by decide⟩,
   ((C4_executor_boundary_amended c6Cfg c6Renv 46800000).2.2 [c6RA, c6RB] c6RA (by decide)
      500 (by decide)).1,
   ((C4_executor_boundary_amended c6Cfg c6Renv 46800000).2.2 [c6RA, c6RB] c6RA (by decide)
      500 (by decide)).2 c6RB (by decide)⟩

/-- C6: every resolved repository is attempted, and any error escaping the
per-repository processing is caught, logged together with the repository
identity and its status, and the loop moves on (membership of the later
repositories' events is unaffected). -/
theorem C6_per_repo_isolation (cfg : Config) (renv : RepoRef → RepoEnv) (now : Int)
    (repos : List RepoRef) :
    (∀ r ∈ repos, (r, Event.checkingOpen) ∈ (mainRun cfg renv now repos).events) ∧
      (∀ r ∈ repos, ∀ s, (processRepo cfg (renv r) now).err = some s →
        (r, Event.errorProcessingRepo s) ∈ (mainRun cfg renv now repos).events) :=
  ⟨mainRun_attempted cfg renv now repos, mainRun_error_logged cfg renv now repos⟩

/-- Witness for C6: repository `ra` fails with status 500 yet is logged, and
repository `rb`, later in the list, is still attempted. -/
theorem C6_per_repo_isolation_witness :
    ((c6RA, Event.errorProcessingRepo 500) ∈
        (mainRun c6Cfg c6Renv 46800000 [c6RA, c6RB]).events) ∧
      ((c6RB, Event.checkingOpen) ∈ (mainRun c6Cfg c6Renv 46800000 [c6RA, c6RB]).events) :=
  ⟨(C6_per_repo_isolation c6Cfg c6Renv 46800000 [c6RA, c6RB]).2 c6RA (by decide) 500 (by decide),
   (C6_per_repo_isolation c6Cfg c6Renv 46800000 [c6RA, c6RB]).1 c6RB (by decide)⟩

theorem reviewerStep_commentCall_mem (cfg : Config) (env : RepoEnv) (now : Int)
    (pr : PullRequest) (reviews : List Review) (login : String) (n : Nat) (b : String) :
    Event.commentCall n b ∈ (reviewerStep cfg env now pr reviews login).events ↔
      ((reviewerDecision cfg.reviewHours reviews now pr login).isSome = true ∧
        cfg.dryRun = false ∧ n = pr.number ∧
        b = reviewerBody login (hoursSince now pr.createdAt) cfg.reviewHours) := by
  unfold reviewerStep
  split
  · rename_i hdec
    simp [hdec]
  · rename_i a hdec
    split
    · rename_i hdry
      simp [hdec, hdry]
    · rename_i hdry
      cases hc : env.commentResult pr.number
          (reviewerBody login (hoursSince now pr.createdAt) cfg.reviewHours) <;>
        simp [hdec, hc, hdry]

theorem branchPrStep_commentCall_mem (cfg : Config) (env : RepoEnv) (since : Int)
    (pr : PullRequest) (n : Nat) (b : String) :
    Event.commentCall n b ∈ (branchPrStep cfg env since pr).events ↔
      (¬ pr.updatedAt < since ∧ pr.mergedAt.isSome = true ∧
        env.refResult pr.headBranch = .ok ∧ cfg.dryRun = false ∧
        n = pr.number ∧ b = branchBody pr.author pr.headBranch) := by
  unfold branchPrStep
  repeat' split
  all_goals simp_all

theorem prStepOpen_events_sub {cfg : Config} {env : RepoEnv} {now : Int}
    {pr : PullRequest} {e : Event}
    (he : e ∈ (prStepOpen cfg env now pr).events) :
    ∃ login ∈ pr.requestedReviewers,
      e ∈ (reviewerStep cfg env now pr (env.reviews pr.number) login).events := by
  unfold prStepOpen at he
  split at he
  · simp at he
  · exact runList_events_sub he

theorem openGo_events_sub {cfg : Config} {env : RepoEnv} {now : Int} {page : Nat}
    {pages : List (List PullRequest)} {e : Event}
    (he : e ∈ (openGo cfg env now page pages).events) :
    (∃ j, e = .pageRequestOpen j) ∨
      ∃ pr ∈ processedOpen pages, e ∈ (prStepOpen cfg env now pr).events := by
  induction pages generalizing page with
  | nil =>
    simp [openGo] at he
    exact Or.inl ⟨page, he⟩
  | cons p rest ih =>
    by_cases hemp : p.isEmpty
    · simp [openGo, hemp] at he
      exact Or.inl ⟨page, he⟩
    · simp only [openGo, if_neg hemp] at he
      rcases List.mem_cons.mp he with rfl | he2
      · exact Or.inl ⟨page, rfl⟩
      · rcases seq_events_sub he2 with h | h
        · rcases runList_events_sub h with ⟨pr, hpr, hev⟩
          exact Or.inr ⟨pr, by
            simp only [processedOpen, if_neg hemp]
            exact List.mem_append.mpr (Or.inl hpr), hev⟩
        · rcases ih h with h2 | ⟨pr, hpr, hev⟩
          · exact Or.inl h2
          · exact Or.inr ⟨pr, by
              simp only [processedOpen, if_neg hemp]
              exact List.mem_append.mpr (Or.inr hpr), hev⟩

theorem openGo_err_none_dry (cfg : Config) (env : RepoEnv) (now : Int) (page : Nat)
    (pages : List (List PullRequest)) (hd : cfg.dryRun = true) :
    (openGo cfg env now page pages).err = none := by
  rw [openGo_err_none_iff]
  intro pr hpr
  rw [prStepOpen_err_none_iff]
  intro login hlogin
  rw [reviewerStep_err_none]
  exact Or.inr (Or.inl hd)

theorem openGo_err_none_success (cfg : Config) (env : RepoEnv) (now : Int) (page : Nat)
    (pages : List (List PullRequest)) (hs : ∀ n b, env.commentResult n b = none) :
    (openGo cfg env now page pages).err = none := by
  rw [openGo_err_none_iff]
  intro pr hpr
  rw [prStepOpen_err_none_iff]
  intro login hlogin
  rw [reviewerStep_err_none]
  exact Or.inr (Or.inr (hs _ _))

theorem remindLogged_seq {mk : Nat → String → Event} {rh : Rat} {a b : RunOut}
    (ha : RemindLogged mk rh a) (hb : RemindLogged mk rh b) :
    RemindLogged mk rh (RunOut.seq a b) := by
  cases he : a.err with
  | some s =>
    intro x hx
    simp only [RunOut.seq, he] at hx ⊢
    exact ha x hx
  | none =>
    rw [seq_of_err_none he]
    intro x hx
    rcases List.mem_append.mp hx with h | h
    · exact List.mem_append.mpr (Or.inl (ha x h))
    · exact List.mem_append.mpr (Or.inr (hb x h))

theorem remindLogged_runList {α : Type} {mk : Nat → String → Event} {rh : Rat}
    {f : α → RunOut} {xs : List α}
    (h : ∀ x ∈ xs, RemindLogged mk rh (f x)) : RemindLogged mk rh (runList f xs) := by
  induction xs with
  | nil =>
    intro a ha
    simp [runList] at ha
  | cons x xs ih =>
    exact remindLogged_seq (h x (by simp)) (ih fun y hy => h y (by simp [hy]))

theorem remindLogged_consEvent {mk : Nat → String → Event} {rh : Rat} {e : Event} {o : RunOut}
    (h : RemindLogged mk rh o) :
    RemindLogged mk rh ⟨e :: o.events, o.reminders, o.err⟩ := by
  intro a ha
  exact List.mem_cons.mpr (Or.inr (h a ha))

theorem reviewerStep_logged_dry (cfg : Config) (env : RepoEnv) (now : Int)
    (pr : PullRequest) (reviews : List Review) (login : String) (hd : cfg.dryRun = true) :
    RemindLogged Event.logDryRun cfg.reviewHours (reviewerStep cfg env now pr reviews login) := by
  intro a ha
  rw [reviewerStep_reminders] at ha
  cases hdec : reviewerDecision cfg.reviewHours reviews now pr login with
  | none =>
    rw [hdec] at ha
    simp at ha
  | some a0 =>
    rw [hdec] at ha
    simp only [Option.toList_some, List.mem_singleton] at ha
    subst ha
    rcases reviewerDecision_eq_some.mp hdec with ⟨-, -, rfl⟩
    unfold reviewerStep
    rw [hdec]
    simp [hd, actionPr, actionBody]

theorem reviewerStep_logged_live (cfg : Config) (env : RepoEnv) (now : Int)
    (pr : PullRequest) (reviews : List Review) (login : String) (hd : cfg.dryRun = false)
    (hsc : env.commentResult pr.number
      (reviewerBody login (hoursSince now pr.createdAt) cfg.reviewHours) = none) :
    RemindLogged Event.commentCall cfg.reviewHours (reviewerStep cfg env now pr reviews login) := by
  intro a ha
  rw [reviewerStep_reminders] at ha
  cases hdec : reviewerDecision cfg.reviewHours reviews now pr login with
  | none =>
    rw [hdec] at ha
    simp at ha
  | some a0 =>
    rw [hdec] at ha
    simp only [Option.toList_some, List.mem_singleton] at ha
    subst ha
    rcases reviewerDecision_eq_some.mp hdec with ⟨-, -, rfl⟩
    unfold reviewerStep
    rw [hdec]
    simp [hd, hsc, actionPr, actionBody]

theorem branchPrStep_logged_dry (rh : Rat) (cfg : Config) (env : RepoEnv) (since : Int)
    (pr : PullRequest) (hd : cfg.dryRun = true) :
    RemindLogged Event.logDryRun rh (branchPrStep cfg env since pr) := by
  intro a ha
  rw [branchPrStep_reminders] at ha
  cases hdec : branchDecision env since pr with
  | none =>
    rw [hdec] at ha
    simp at ha
  | some a0 =>
    rw [hdec] at ha
    simp only [Option.toList_some, List.mem_singleton] at ha
    subst ha
    rcases branchDecision_eq_some.mp hdec with ⟨h1, h2, h3, rfl⟩
    unfold branchPrStep
    simp [h1, h2, h3, hd, actionPr, actionBody]

theorem branchPrStep_logged_live (rh : Rat) (cfg : Config) (env : RepoEnv) (since : Int)
    (pr : PullRequest) (hd : cfg.dryRun = false)
    (hsc : env.commentResult pr.number (branchBody pr.author pr.headBranch) = none) :
    RemindLogged Event.commentCall rh (branchPrStep cfg env since pr) := by
  intro a ha
  rw [branchPrStep_reminders] at ha
  cases hdec : branchDecision env since pr with
  | none =>
    rw [hdec] at ha
    simp at ha
  | some a0 =>
    rw [hdec] at ha
    simp only [Option.toList_some, List.mem_singleton] at ha
    subst ha
    rcases branchDecision_eq_some.mp hdec with ⟨h1, h2, h3, rfl⟩
    unfold branchPrStep
    simp [h1, h2, h3, hd, hsc, actionPr, actionBody]

theorem remindLogged_prStepOpen {mk : Nat → String → Event} (cfg : Config) (env : RepoEnv)
    (now : Int) (pr : PullRequest)
    (h : ∀ login, RemindLogged mk cfg.reviewHours
      (reviewerStep cfg env now pr (env.reviews pr.number) login)) :
    RemindLogged mk cfg.reviewHours (prStepOpen cfg env now pr) := by
  unfold prStepOpen
  split
  · intro a ha
    simp at ha
  · exact remindLogged_runList (fun login _ => h login)

theorem remindLogged_openGo {mk : Nat → String → Event} (cfg : Config) (env : RepoEnv)
    (now : Int) (page : Nat) (pages : List (List PullRequest))
    (h : ∀ pr login, RemindLogged mk cfg.reviewHours
      (reviewerStep cfg env now pr (env.reviews pr.number) login)) :
    RemindLogged mk cfg.reviewHours (openGo cfg env now page pages) := by
  induction pages generalizing page with
  | nil =>
    intro a ha
    simp [openGo] at ha
  | cons p rest ih =>
    by_cases hemp : p.isEmpty
    · intro a ha
      simp [openGo, hemp] at ha
    · simp only [openGo, if_neg hemp]
      exact remindLogged_consEvent (remindLogged_seq
        (remindLogged_runList (fun pr _ => remindLogged_prStepOpen cfg env now pr (h pr)))
        (ih (page + 1)))

theorem remindLogged_closedGo {mk : Nat → String → Event} {rh : Rat} (cfg : Config)
    (env : RepoEnv) (since : Int) (page : Nat) (pages : List (List PullRequest))
    (h : ∀ pr, RemindLogged mk rh (branchPrStep cfg env since pr)) :
    RemindLogged mk rh (closedGo cfg env since page pages) := by
  induction pages generalizing page with
  | nil =>
    intro a ha
    simp [closedGo] at ha
  | cons p rest ih =>
    by_cases hemp : p.isEmpty
    · intro a ha
      simp [closedGo, hemp] at ha
    · by_cases hwin : pageWithin since p
      · simp only [closedGo, if_neg hemp, if_pos hwin]
        exact remindLogged_consEvent (remindLogged_seq
          (remindLogged_runList (fun pr _ => h pr)) (ih (page + 1)))
      · simp only [closedGo, if_neg hemp, if_neg hwin]
        exact remindLogged_consEvent (remindLogged_runList (fun pr _ => h pr))

theorem remindLogged_processRepo {mk : Nat → String → Event} (cfg : Config) (env : RepoEnv)
    (now : Int)
    (h1 : ∀ pr login, RemindLogged mk cfg.reviewHours
      (reviewerStep cfg env now pr (env.reviews pr.number) login))
    (h2 : ∀ pr, RemindLogged mk cfg.reviewHours (branchPrStep cfg env (sinceOf cfg now) pr)) :
    RemindLogged mk cfg.reviewHours (processRepo cfg env now) := by
  refine remindLogged_seq ?_ ?_
  · show RemindLogged mk cfg.reviewHours
      ⟨Event.checkingOpen :: (openGo cfg env now 1 env.openPages).events,
        (openGo cfg env now 1 env.openPages).reminders,
        (openGo cfg env now 1 env.openPages).err⟩
    exact remindLogged_consEvent (remindLogged_openGo cfg env now 1 env.openPages h1)
  · show RemindLogged mk cfg.reviewHours
      ⟨Event.checkingClosed :: (closedGo cfg env (sinceOf cfg now) 1 env.closedPages).events,
        (closedGo cfg env (sinceOf cfg now) 1 env.closedPages).reminders,
        (closedGo cfg env (sinceOf cfg now) 1 env.closedPages).err⟩
    exact remindLogged_consEvent (remindLogged_closedGo cfg env (sinceOf cfg now) 1
      env.closedPages h2)

/-- C5: with the dry-run flag set, a repository scan makes no remote
comment-creation call; its decided reminders are exactly those of the live
run on the same data; every decided reminder produces a dry-run log line
carrying its rendered body; and in live mode (comments succeeding) the same
rendered body is exactly what is posted as the comment. -/
theorem C5_dry_run (cfg : Config) (env : RepoEnv) (now : Int)
    (hd : cfg.dryRun = true)
    (hs : ∀ n b, env.commentResult n b = none) :
    NoCommentCall (processRepo cfg env now) ∧
      (processRepo cfg env now).reminders =
        (processRepo (setDryRun cfg false) env now).reminders ∧
      RemindLogged Event.logDryRun cfg.reviewHours (processRepo cfg env now) ∧
      RemindLogged Event.commentCall cfg.reviewHours
        (processRepo (setDryRun cfg false) env now) := by
  refine ⟨?_, ?_, ?_, ?_⟩
  · intro n b hmem
    rcases seq_events_sub hmem with h | h
    · rw [notifyInactive_events] at h
      rcases List.mem_cons.mp h with habs | h2
      · cases habs
      · rcases openGo_events_sub h2 with ⟨j, hj⟩ | ⟨pr, hpr, hev⟩
        · cases hj
        · rcases prStepOpen_events_sub hev with ⟨login, hlogin, hev2⟩
          rcases (reviewerStep_commentCall_mem cfg env now pr (env.reviews pr.number)
            login n b).mp hev2 with ⟨-, hdry, -, -⟩
          rw [hd] at hdry
          cases hdry
    · rw [notifyUndeleted_events] at h
      rcases List.mem_cons.mp h with habs | h2
      · cases habs
      · rcases (closedGo_mem_iff cfg env (sinceOf cfg now) 1 env.closedPages _
          (fun j hj => by cases hj)).mp h2 with ⟨pr, hpr, hev⟩
        rcases (branchPrStep_commentCall_mem cfg env (sinceOf cfg now) pr n b).mp hev
          with ⟨-, -, -, hdry, -, -⟩
        rw [hd] at hdry
        cases hdry
  · have hok1 : (notifyInactiveReviewers cfg env now).err = none :=
      openGo_err_none_dry cfg env now 1 env.openPages hd
    have hok2 : (notifyInactiveReviewers (setDryRun cfg false) env now).err = none :=
      openGo_err_none_success (setDryRun cfg false) env now 1 env.openPages hs
    unfold processRepo
    rw [seq_of_err_none hok1, seq_of_err_none hok2]
    show (notifyInactiveReviewers cfg env now).reminders ++
        (notifyUndeletedBranches cfg env now).reminders =
      (notifyInactiveReviewers (setDryRun cfg false) env now).reminders ++
        (notifyUndeletedBranches (setDryRun cfg false) env now).reminders
    rw [notifyInactive_reminders_eq cfg env now hok1,
      notifyInactive_reminders_eq (setDryRun cfg false) env now hok2,
      notifyUndeleted_reminders cfg env now,
      notifyUndeleted_reminders (setDryRun cfg false) env now]
    rfl
  · exact remindLogged_processRepo cfg env now
      (fun pr login => reviewerStep_logged_dry cfg env now pr (env.reviews pr.number) login hd)
      (fun pr => branchPrStep_logged_dry cfg.reviewHours cfg env (sinceOf cfg now) pr hd)
  · exact remindLogged_processRepo (setDryRun cfg false) env now
      (fun pr login => reviewerStep_logged_live (setDryRun cfg false) env now pr
        (env.reviews pr.number) login rfl (hs _ _))
      (fun pr => branchPrStep_logged_live cfg.reviewHours (setDryRun cfg false) env
        (sinceOf (setDryRun cfg false) now) pr rfl (hs _ _))

/-- Witness for C5: in the dry-run scenario the reviewer comment for bob is
not posted, yet its exact body is logged; the live run on the same data would
post exactly that body; and both runs decide the same reminders. -/
theorem C5_dry_run_witness :
    (Event.commentCall 1 (actionBody 12 (Action.reviewerReminder 1 "bob" (hoursSince 46800000 0))) ∉
        (processRepo c5Cfg c5Env 46800000).events) ∧
      (Event.logDryRun 1 (actionBody 12 (Action.reviewerReminder 1 "bob" (hoursSince 46800000 0))) ∈
        (processRepo c5Cfg c5Env 46800000).events) ∧
      (Event.commentCall 1 (actionBody 12 (Action.reviewerReminder 1 "bob" (hoursSince 46800000 0))) ∈
        (processRepo (setDryRun c5Cfg false) c5Env 46800000).events) ∧
      (processRepo c5Cfg c5Env 46800000).reminders =
        (processRepo (setDryRun c5Cfg false) c5Env 46800000).reminders :=
  ⟨(C5_dry_run c5Cfg c5Env 46800000 (by decide) (fun n b => rfl)).1 1
      (actionBody 12 (Action.reviewerReminder 1 "bob" (hoursSince 46800000 0))),
   (C5_dry_run c5Cfg c5Env 46800000 (by decide) (fun n b => rfl)).2.2.1
      (Action.reviewerReminder 1 "bob" (hoursSince 46800000 0)) (by decide),
   (C5_dry_run c5Cfg c5Env 46800000 (by decide) (fun n b => rfl)).2.2.2
      (Action.reviewerReminder 1 "bob" (hoursSince 46800000 0)) (by decide),
   (C5_dry_run c5Cfg c5Env 46800000 (by decide) (fun n b => rfl)).2.1⟩

/-! ## Resolver characterizations -/

theorem splitChars_ne_nil (c : Char) (l : List Char) : splitChars c l ≠ [] := by
  induction l with
  | nil => simp [splitChars]
  | cons ch rest ih =>
    by_cases h : ch = c
    · simp [splitChars, h]
    · simp only [splitChars, if_neg h]
      cases hr : splitChars c rest with
      | nil => simp
      | cons w ws => simp

theorem jsSplit_ne_nil (c : Char) (s : String) : jsSplit c s ≠ [] := by
  unfold jsSplit
  intro h
  rw [List.map_eq_nil_iff] at h
  exact splitChars_ne_nil c s.data h

theorem reposRaw_ne_empty (s : String) : ∀ e ∈ reposRaw s, e ≠ "" := by
  intro e he
  unfold reposRaw at he
  have h2 := List.of_mem_filter he
  intro h0
  rw [h0] at h2
  simp at h2

theorem parseEntry_error_iff (owner e : String) :
    (∃ m, parseEntry owner e = .error m) ↔ entryBad owner e := by
  unfold parseEntry entryBad
  rcases hsp : jsSplit '/' e with _ | ⟨x, _ | ⟨y, _ | ⟨z, rest⟩⟩⟩
  · exact absurd hsp (jsSplit_ne_nil '/' e)
  · by_cases ho : owner = "" <;> simp [ho]
  · simp
  · constructor
    · intro h4
      right
      simp only [List.length_cons]
      omega
    · intro h4
      exact ⟨_, rfl⟩

theorem parseEntry_ok_of_good (owner e : String) (hgood : ¬ entryBad owner e) :
    parseEntry owner e = .ok (parsedRef owner e) := by
  unfold entryBad at hgood
  unfold parseEntry parsedRef
  rcases hsp : jsSplit '/' e with _ | ⟨x, _ | ⟨y, _ | ⟨z, rest⟩⟩⟩
  · exact absurd hsp (jsSplit_ne_nil '/' e)
  · rw [hsp] at hgood
    have ho : owner ≠ "" := fun h0 => hgood (Or.inl ⟨rfl, h0⟩)
    simp [ho]
  · rfl
  · rw [hsp] at hgood
    exact absurd (Or.inr (by simp only [List.length_cons]; omega)) hgood

theorem parseGo_error_iff (owner : String) (entries : List String) :
    (∃ m, parseExplicitReposGo owner entries = .error m) ↔
      ∃ e ∈ entries, e ≠ "" ∧ entryBad owner e := by
  induction entries with
  | nil => simp [parseExplicitReposGo]
  | cons e rest ih =>
    by_cases he : e = ""
    · subst he
      have hstep : parseExplicitReposGo owner ("" :: rest) = parseExplicitReposGo owner rest := by
        conv_lhs => rw [parseExplicitReposGo]
        rw [if_pos rfl]
      rw [hstep, ih]
      constructor
      · rintro ⟨e2, he2, hne2, hb2⟩
        exact ⟨e2, by simp [he2], hne2, hb2⟩
      · rintro ⟨e2, he2, hne2, hb2⟩
        rcases List.mem_cons.mp he2 with rfl | he2t
        · exact absurd rfl hne2
        · exact ⟨e2, he2t, hne2, hb2⟩
    · simp only [parseExplicitReposGo, if_neg he]
      cases hp : parseEntry owner e with
      | error m =>
        constructor
        · intro h2
          exact ⟨e, by simp, he, (parseEntry_error_iff owner e).mp ⟨m, hp⟩⟩
        · intro h2
          exact ⟨m, rfl⟩
      | ok r0 =>
        cases hgo : parseExplicitReposGo owner rest with
        | error m2 =>
          constructor
          · intro h2
            rcases ih.mp ⟨m2, hgo⟩ with ⟨e2, he2, hne2, hbad2⟩
            exact ⟨e2, by simp [he2], hne2, hbad2⟩
          · intro h2
            exact ⟨m2, rfl⟩
        | ok l =>
          constructor
          · rintro ⟨m, hm⟩
            cases hm
          · rintro ⟨e2, he2, hne2, hbad2⟩
            rcases List.mem_cons.mp he2 with rfl | he2t
            · rcases (parseEntry_error_iff owner e2).mpr hbad2 with ⟨m, hm⟩
              rw [hp] at hm
              cases hm
            · rcases ih.mpr ⟨e2, he2t, hne2, hbad2⟩ with ⟨m, hm⟩
              rw [hgo] at hm
              cases hm

theorem parseGo_ok_map (owner : String) (entries : List String)
    (hne : ∀ e ∈ entries, e ≠ "")
    (hgood : ∀ e ∈ entries, ¬ entryBad owner e) :
    parseExplicitReposGo owner entries = .ok (entries.map (parsedRef owner)) := by
  induction entries with
  | nil => rfl
  | cons e rest ih =>
    have he : e ≠ "" := hne e (by simp)
    simp only [parseExplicitReposGo, if_neg he]
    rw [parseEntry_ok_of_good owner e (hgood e (by simp)),
      ih (fun x hx => hne x (by simp [hx])) (fun x hx => hgood x (by simp [hx]))]
    rfl

theorem autoDiscover_config_iff (cfg : Config) (env : DiscoveryEnv) :
    isConfigError (autoDiscoverRepos cfg env) = true ↔ cfg.owner = "" := by
  unfold autoDiscoverRepos
  by_cases ho : cfg.owner = ""
  · simp [ho, isConfigError]
  · simp only [if_neg ho]
    cases h : (discRun cfg env).err <;> simp [h, isConfigError, ho]

theorem listRepos_of_raw_empty (cfg : Config) (denv : DiscoveryEnv)
    (h : reposRaw cfg.reposStr = []) :
    listRepos cfg denv = ⟨autoDiscoverRepos cfg denv, true⟩ := by
  unfold listRepos
  rw [h]
  rfl

theorem listRepos_of_error (cfg : Config) (denv : DiscoveryEnv) (m : String)
    (hne : reposRaw cfg.reposStr ≠ [])
    (hm : parseExplicitReposGo cfg.owner (reposRaw cfg.reposStr) = .error m) :
    listRepos cfg denv = ⟨.error (.config m), false⟩ := by
  unfold listRepos parseExplicitRepos
  rw [if_neg (fun h0 => hne (List.isEmpty_iff.mp h0)), hm]

theorem listRepos_of_ok (cfg : Config) (denv : DiscoveryEnv) (l : List RepoRef)
    (hne : reposRaw cfg.reposStr ≠ [])
    (hl : parseExplicitReposGo cfg.owner (reposRaw cfg.reposStr) = .ok l)
    (hlne : l ≠ []) :
    listRepos cfg denv = ⟨.ok l, false⟩ := by
  unfold listRepos parseExplicitRepos
  rw [if_neg (fun h0 => hne (List.isEmpty_iff.mp h0)), hl]
  simp only
  rw [if_neg (fun h0 => hlne (List.isEmpty_iff.mp h0))]

/-- C7: resolution fails with a configuration error exactly when neither an
explicit list nor an owner is supplied, or an explicit entry is a bare name
with no configured owner, or an entry has more than two slash-separated
parts; a non-empty well-formed explicit list resolves to its parsed
owner/name pairs with no discovery (no network); and a configuration error
means no repository is ever scanned. -/
theorem C7_resolution (cfg : Config) (denv : DiscoveryEnv) :
    (isConfigError (listRepos cfg denv).result = true ↔
        ((reposRaw cfg.reposStr = [] ∧ cfg.owner = "") ∨
          ∃ e ∈ reposRaw cfg.reposStr, entryBad cfg.owner e)) ∧
      (reposRaw cfg.reposStr ≠ [] →
        (∀ e ∈ reposRaw cfg.reposStr, ¬ entryBad cfg.owner e) →
        (listRepos cfg denv).result =
            .ok ((reposRaw cfg.reposStr).map (parsedRef cfg.owner)) ∧
          (listRepos cfg denv).usedDiscovery = false) ∧
      (∀ renv now, isConfigError (listRepos cfg denv).result = true →
        (fullRun cfg denv renv now).2 = []) := by
  refine ⟨?_, ?_, ?_⟩
  · by_cases hbad : ∃ e ∈ reposRaw cfg.reposStr, entryBad cfg.owner e
    · rcases hbad with ⟨e, he, hb⟩
      have hrawne : reposRaw cfg.reposStr ≠ [] := fun h0 => by
        rw [h0] at he
        cases he
      rcases (parseGo_error_iff cfg.owner (reposRaw cfg.reposStr)).mpr
        ⟨e, he, reposRaw_ne_empty cfg.reposStr e he, hb⟩ with ⟨m, hm⟩
      rw [listRepos_of_error cfg denv m hrawne hm]
      exact iff_of_true rfl (Or.inr ⟨e, he, hb⟩)
    · by_cases hraw : reposRaw cfg.reposStr = []
      · rw [listRepos_of_raw_empty cfg denv hraw]
        show isConfigError (autoDiscoverRepos cfg denv) = true ↔ _
        rw [autoDiscover_config_iff]
        constructor
        · intro ho
          exact Or.inl ⟨hraw, ho⟩
        · rintro (⟨-, ho⟩ | hb)
          · exact ho
          · exact absurd hb hbad
      · have hgood : ∀ e ∈ reposRaw cfg.reposStr, ¬ entryBad cfg.owner e :=
          fun e he hb => hbad ⟨e, he, hb⟩
        have hl := parseGo_ok_map cfg.owner (reposRaw cfg.reposStr)
          (reposRaw_ne_empty cfg.reposStr) hgood
        rw [listRepos_of_ok cfg denv _ hraw hl
          (fun h0 => hraw (List.map_eq_nil_iff.mp h0))]
        refine iff_of_false (by simp [isConfigError]) ?_
        rintro (⟨h1, -⟩ | hb)
        · exact hraw h1
        · exact hbad hb
  · intro hraw hgood
    have hl := parseGo_ok_map cfg.owner (reposRaw cfg.reposStr)
      (reposRaw_ne_empty cfg.reposStr) hgood
    have heq := listRepos_of_ok cfg denv _ hraw hl
      (fun h0 => hraw (List.map_eq_nil_iff.mp h0))
    exact ⟨by rw [heq], by rw [heq]⟩
  · intro renv now hcfg
    unfold fullRun
    cases hres : (listRepos cfg denv).result with
    | error e => rfl
    | ok l =>
      rw [hres] at hcfg
      simp [isConfigError] at hcfg

/-- Witness for C7: the mixed explicit list `o1/r1, r2` with owner `acme`
resolves without discovery to the two parsed targets, and the entry `a/b/c`
with no owner is a configuration error. -/
theorem C7_resolution_witness :
    ((listRepos c7Cfg c7Denv).result =
        .ok [⟨"o1", "r1"⟩, ⟨"acme", "r2"⟩] ∧
      (listRepos c7Cfg c7Denv).usedDiscovery = false) ∧
      isConfigError (listRepos c7BadCfg c7Denv).result = true :=
  ⟨⟨by
      rw [((C7_resolution c7Cfg c7Denv).2.1 (by decide) (by decide)).1]
      rfl,
    ((C7_resolution c7Cfg c7Denv).2.1 (by decide) (by decide)).2⟩,
   (C7_resolution c7BadCfg c7Denv).1.mpr (Or.inr ⟨"a/b/c", by decide, by decide⟩)⟩

/-- C9: if every comma-separated entry of the explicit list trims to the
empty string, the parsed list is empty and the resolver falls back to
auto-discovery, which is a configuration error when no owner is set. -/
theorem C9_whitespace_fallback (cfg : Config) (denv : DiscoveryEnv)
    (h : ∀ e ∈ jsSplit ',' cfg.reposStr, jsTrim e = "") :
    reposRaw cfg.reposStr = [] ∧
      listRepos cfg denv = ⟨autoDiscoverRepos cfg denv, true⟩ ∧
      (cfg.owner = "" → isConfigError (listRepos cfg denv).result = true) := by
  have hraw : reposRaw cfg.reposStr = [] := by
    unfold reposRaw
    rw [List.filter_eq_nil_iff]
    intro a ha
    rcases List.mem_map.mp ha with ⟨e, he, rfl⟩
    rw [h e he]
    simp
  refine ⟨hraw, listRepos_of_raw_empty cfg denv hraw, ?_⟩
  intro ho
  rw [listRepos_of_raw_empty cfg denv hraw]
  show isConfigError (autoDiscoverRepos cfg denv) = true
  rw [autoDiscover_config_iff]
  exact ho

/-- Witness for C9: with `REPOS = " , ,  "` and no owner, the parsed explicit
list is empty and resolution ends in a configuration error from the
auto-discovery fallback. -/
theorem C9_whitespace_fallback_witness :
    reposRaw c9Cfg.reposStr = [] ∧
      isConfigError (listRepos c9Cfg c9Denv).result = true :=
  ⟨(C9_whitespace_fallback c9Cfg c9Denv (by decide)).1,
   (C9_whitespace_fallback c9Cfg c9Denv (by decide)).2.2 rfl⟩

theorem discStep_false (env : DiscoveryEnv) (page : Nat) :
    (∃ s, discStep env page false = .error s) ∨
      discStep env page false = .ok (userAt env page, .user, false) := by
  unfold discStep
  cases orgAt env page with
  | ok d => right; rfl
  | err s =>
    dsimp only
    by_cases h : s = 404
    · right
      rw [if_pos h]
    · left
      exact ⟨s, by rw [if_neg h]⟩

theorem discStep_404 (env : DiscoveryEnv) (page : Nat) (isOrg : Bool)
    (h : orgAt env page = .err 404) :
    discStep env page isOrg = .ok (userAt env page, .user, false) := by
  unfold discStep
  rw [h]
  dsimp only
  rw [if_pos rfl]

theorem discStep_user_sticky (env : DiscoveryEnv) (page : Nat) (isOrg : Bool)
    (data : List RepoInfo) (io2 : Bool)
    (h : discStep env page isOrg = .ok (data, Src.user, io2)) : io2 = false := by
  unfold discStep at h
  cases ho : orgAt env page with
  | ok d =>
    rw [ho] at h
    dsimp only at h
    cases isOrg with
    | true => simp at h
    | false =>
      simp only [Bool.false_eq_true, if_false, Except.ok.injEq, Prod.mk.injEq] at h
      exact h.2.2.symm
  | err s =>
    rw [ho] at h
    dsimp only at h
    by_cases h4 : s = 404
    · rw [if_pos h4] at h
      simp only [Except.ok.injEq, Prod.mk.injEq] at h
      exact h.2.2.symm
    · rw [if_neg h4] at h
      cases h

theorem discGo_false_user (cfg : Config) (env : DiscoveryEnv) :
    ∀ fuel page, ∀ x ∈ (discGo cfg env fuel page false).trace, x.2 = Src.user := by
  intro fuel
  induction fuel with
  | zero =>
    intro page x hx
    simp [discGo] at hx
  | succ n ih =>
    intro page x hx
    simp only [discGo] at hx
    rcases discStep_false env page with ⟨s, hstep⟩ | hstep
    · rw [hstep] at hx
      simp at hx
    · rw [hstep] at hx
      dsimp only at hx
      by_cases hemp : (userAt env page).isEmpty
      · rw [if_pos hemp] at hx
        simp at hx
      · rw [if_neg hemp] at hx
        rcases List.mem_cons.mp hx with rfl | hx2
        · rfl
        · exact ih (page + 1) x hx2

theorem discGo_user_sticky (cfg : Config) (env : DiscoveryEnv) :
    ∀ fuel page isOrg i j p q s, i < j →
      (discGo cfg env fuel page isOrg).trace.get? i = some (p, Src.user) →
      (discGo cfg env fuel page isOrg).trace.get? j = some (q, s) → s = Src.user := by
  intro fuel
  induction fuel with
  | zero =>
    intro page isOrg i j p q s hij h1 h2
    simp [discGo] at h1
  | succ n ih =>
    intro page isOrg i j p q s hij h1 h2
    simp only [discGo] at h1 h2
    cases hstep : discStep env page isOrg with
    | error st =>
      rw [hstep] at h1
      simp at h1
    | ok t =>
      rcases t with ⟨data, src, io2⟩
      rw [hstep] at h1 h2
      dsimp only at h1 h2
      by_cases hemp : data.isEmpty
      · rw [if_pos hemp] at h1
        simp at h1
      · rw [if_neg hemp] at h1 h2
        cases i with
        | zero =>
          simp only [List.get?_cons_zero, Option.some_inj] at h1
          have hsrc : src = Src.user := by
            cases h1
            rfl
          subst hsrc
          have hio : io2 = false := discStep_user_sticky env page isOrg data io2 hstep
          subst hio
          cases j with
          | zero => omega
          | succ j0 =>
            simp only [List.get?_cons_succ] at h2
            exact discGo_false_user cfg env n (page + 1) (q, s) (List.get?_mem h2)
        | succ i0 =>
          cases j with
          | zero => omega
          | succ j0 =>
            simp only [List.get?_cons_succ] at h1 h2
            exact ih (page + 1) io2 i0 j0 p q s (by omega) h1 h2

theorem discGo_404_user (cfg : Config) (env : DiscoveryEnv) :
    ∀ fuel page isOrg p s, (p, s) ∈ (discGo cfg env fuel page isOrg).trace →
      orgAt env p = .err 404 → s = Src.user := by
  intro fuel
  induction fuel with
  | zero =>
    intro page isOrg p s hx h404
    simp [discGo] at hx
  | succ n ih =>
    intro page isOrg p s hx h404
    simp only [discGo] at hx
    cases hstep : discStep env page isOrg with
    | error st =>
      rw [hstep] at hx
      simp at hx
    | ok t =>
      rcases t with ⟨data, src, io2⟩
      rw [hstep] at hx
      dsimp only at hx
      by_cases hemp : data.isEmpty
      · rw [if_pos hemp] at hx
        simp at hx
      · rw [if_neg hemp] at hx
        rcases List.mem_cons.mp hx with heq | hx2
        · rw [Prod.mk.injEq] at heq
          obtain ⟨hp, hs⟩ := heq
          subst hp
          subst hs
          rw [discStep_404 env p isOrg h404] at hstep
          simp only [Except.ok.injEq, Prod.mk.injEq] at hstep
          exact hstep.2.1.symm
        · exact ih (page + 1) io2 p s hx2 h404

theorem discGo_filter (cfg : Config) (env : DiscoveryEnv) :
    ∀ fuel page isOrg,
      (discGo cfg env fuel page isOrg).repos =
        ((discGo cfg env fuel page isOrg).infos.filter (discPass cfg)).map
          (fun r => (⟨r.ownerLogin, r.name⟩ : RepoRef)) := by
  intro fuel
  induction fuel with
  | zero =>
    intro page isOrg
    simp [discGo]
  | succ n ih =>
    intro page isOrg
    simp only [discGo]
    cases hstep : discStep env page isOrg with
    | error st => rfl
    | ok t =>
      rcases t with ⟨data, src, io2⟩
      dsimp only
      by_cases hemp : data.isEmpty
      · rw [if_pos hemp]
        rfl
      · rw [if_neg hemp]
        dsimp only
        rw [List.filter_append, List.map_append, ih (page + 1) io2]

/-- C8: during auto-discovery the org/user decision is sticky — once a page's
data is taken from the user-style listing every later page's data is too, and
a 404 from the organization listing for a page means that page's data came
from the user listing; and a discovered repository reaches the result exactly
when it passes the archived/fork filter. -/
theorem C8_discovery (cfg : Config) (env : DiscoveryEnv) :
    (∀ i j p q s, i < j →
        (discRun cfg env).trace.get? i = some (p, Src.user) →
        (discRun cfg env).trace.get? j = some (q, s) → s = Src.user) ∧
      (∀ p s, (p, s) ∈ (discRun cfg env).trace →
        orgAt env p = .err 404 → s = Src.user) ∧
      (discRun cfg env).repos =
        ((discRun cfg env).infos.filter (fun r =>
          (cfg.includeArchived || !r.archived) && (cfg.includeForks || !r.fork))).map
          (fun r => (⟨r.ownerLogin, r.name⟩ : RepoRef)) :=
  ⟨fun i j p q s hij h1 h2 =>
      discGo_user_sticky cfg env (discFuel env) 1 true i j p q s hij h1 h2,
   fun p s hx h404 => discGo_404_user cfg env (discFuel env) 1 true p s hx h404,
   discGo_filter cfg env (discFuel env) 1 true⟩

/-- Witness for C8: the owner `u` is not an organization, so page 1 is taken
from the user listing, and the fork `r1` is excluded while `r2` is kept. -/
theorem C8_discovery_witness :
    (discRun c8Cfg c8Env).repos = [⟨"u", "r2"⟩] ∧ Src.user = Src.user :=
  ⟨by
    rw [(C8_discovery c8Cfg c8Env).2.2]
    rfl,
   (C8_discovery c8Cfg c8Env).2.1 1 Src.user (by decide) (by decide)⟩

end RepoGuardian
